import Mathlib

/-!
Verification development for the Full-Buff/misc-code guide-processing scripts
(`steam_guide_cleaner.py` and `steam_guide_to_markdown.py`).

Strings are embedded as `List Char` (`Str`), so that the Python string and
regex operations used by the scripts become executable structural functions.
External libraries (requests, BeautifulSoup parsing, markdownify, yaml,
datetime) are modelled as oracle parameters or `Except` inputs; everything
the repository's own code does to the parsed tree and to the strings is
translated directly from the source.

Functions that consume more than one character per step are written with an
explicit fuel argument (initialized to the string length, which bounds the
number of steps) so that they are structurally recursive and evaluate by
kernel reduction.
-/

abbrev Str := List Char

/-- Python whitespace (ASCII part), as used by `str.strip()` and regex `\s`. -/
def isPySpace (c : Char) : Bool :=
  c = ' ' || c = '\t' || c = '\n' || c = '\r' || c = '\x0b' || c = '\x0c'

/-- ASCII decimal digit, as matched by regex `\d` on these inputs. -/
def isDigitCh (c : Char) : Bool :=
  '0' ≤ c && c ≤ '9'

/-- Substring occurrence test, the model of Python's `pat in s`
(for a non-empty `pat`). -/
def hasOccur (pat : Str) : Str → Bool
  | [] => false
  | c :: rest => pat.isPrefixOf (c :: rest) || hasOccur pat rest

/-- Fuelled worker for `replaceAll`. -/
def replaceAllF (pat repl : Str) : Nat → Str → Str
  | 0, s => s
  | _ + 1, [] => []
  | fuel + 1, c :: rest =>
    if pat ≠ [] ∧ pat.isPrefixOf (c :: rest) then
      repl ++ replaceAllF pat repl fuel ((c :: rest).drop pat.length)
    else
      c :: replaceAllF pat repl fuel rest

/-- Python `s.replace(pat, repl)`: leftmost, non-overlapping replacement of
every occurrence (model for non-empty `pat`). -/
def replaceAll (pat repl s : Str) : Str :=
  replaceAllF pat repl s.length s

/-- Drop a trailing run of characters satisfying `p` (right half of
Python's `strip`). -/
def dropTrailingP (p : Char → Bool) : Str → Str
  | [] => []
  | c :: rest =>
    let r := dropTrailingP p rest
    if r.isEmpty && p c then [] else c :: r

/-- Python `s.strip(chars-satisfying-p)`: drop a leading and a trailing run. -/
def stripP (p : Char → Bool) (s : Str) : Str :=
  dropTrailingP p (s.dropWhile p)

/-- Fuelled worker for `splitWS`. -/
def splitWSF : Nat → Str → List Str
  | 0, _ => []
  | _ + 1, [] => []
  | fuel + 1, c :: r =>
    if isPySpace c then splitWSF fuel r
    else
      ((c :: r).takeWhile (fun d => !isPySpace d)) ::
        splitWSF fuel ((c :: r).dropWhile (fun d => !isPySpace d))

/-- Split on runs of whitespace (how BeautifulSoup tokenizes a multi-valued
`class` attribute). -/
def splitWS (s : Str) : List Str :=
  splitWSF s.length s

/-- Fuelled worker for `natDigits`. -/
def natDigitsF : Nat → Nat → Str
  | 0, _ => []
  | fuel + 1, n =>
    if n < 10 then [Char.ofNat (48 + n % 10)]
    else natDigitsF fuel (n / 10) ++ [Char.ofNat (48 + n % 10)]

/-- Decimal digits of a natural number (for Python's `{:d}` formatting). -/
def natDigits (n : Nat) : Str :=
  natDigitsF (n + 1) n

/-- Python `f"{n:03d}"` for a natural number. -/
def pad3 (n : Nat) : Str :=
  let d := natDigits n
  if d.length ≥ 3 then d else List.replicate (3 - d.length) '0' ++ d

/-! ## The markup tree (model of the BeautifulSoup document) -/

/-- A parsed markup node: an element with tag, ordered attribute list and
children, or a text node. -/
inductive Node where
  | text (s : Str)
  | elem (tag : Str) (attrs : List (Str × Str)) (children : List Node)
deriving Repr

/-- First value bound to attribute `k` (attribute keys are unique). -/
def getAttr (k : Str) : List (Str × Str) → Option Str
  | [] => none
  | (k', v) :: r => if k' = k then some v else getAttr k r

/-- Attribute assignment `tag[k] = v`: update in place, or append if absent. -/
def setAttr (k v : Str) : List (Str × Str) → List (Str × Str)
  | [] => [(k, v)]
  | (k', v') :: r => if k' = k then (k, v) :: r else (k', v') :: setAttr k v r

/-- The whitespace-separated tokens of the `class` attribute. -/
def classTokens (attrs : List (Str × Str)) : List Str :=
  match getAttr ("class".toList) attrs with
  | none => []
  | some v => splitWS v

/-- BeautifulSoup `class_=q` matching: `q` is one of the class tokens, or
(when `q` itself contains spaces) the whole raw attribute value equals `q`. -/
def matchesClassAttr (q : Str) (attrs : List (Str × Str)) : Bool :=
  (classTokens attrs).any (fun t => t = q) || getAttr ("class".toList) attrs = some q

/-- Predicate of `soup.find_all('div', class_=c)` / `find('div', class_=c)`. -/
def isDivClass (c : Str) : Node → Bool
  | .text _ => false
  | .elem tag attrs _ => tag = ("div".toList) && matchesClassAttr c attrs

/-- Predicate of `soup.find('div', id=i)`. -/
def isDivId (i : Str) : Node → Bool
  | .text _ => false
  | .elem tag attrs _ => tag = ("div".toList) && getAttr ("id".toList) attrs = some i

/-- BeautifulSoup truthiness of a node: a Tag is falsy when it has no
contents (`Tag.__len__` counts children), a string when it is empty. -/
def nodeTruthy : Node → Bool
  | .text s => !s.isEmpty
  | .elem _ _ ch => !ch.isEmpty

mutual

/-- Model of `get_text()` on a node: concatenation of all descendant text. -/
def getTextN : Node → Str
  | .text s => s
  | .elem _ _ ch => getTextL ch

/-- Model of `get_text()` over a list of children. -/
def getTextL : List Node → Str
  | [] => []
  | n :: r => getTextN n ++ getTextL r

end

mutual

/-- Pre-order search inside a node (strict descendants). -/
def findFirstN (q : Node → Bool) : Node → Option Node
  | .text _ => none
  | .elem _ _ ch => findFirstL q ch

/-- Model of `soup.find(...)`: first node of the forest, in document order,
satisfying `q`. -/
def findFirstL (q : Node → Bool) : List Node → Option Node
  | [] => none
  | n :: r =>
    if q n then some n
    else
      match findFirstN q n with
      | some m => some m
      | none => findFirstL q r

end

mutual

/-- Count all nodes (in pre-order, nested matches included) satisfying `q`;
the length of the list `soup.find_all(q)` would return. -/
def countMatchesN (q : Node → Bool) : Node → Nat
  | .text s => if q (.text s) then 1 else 0
  | .elem t a ch => (if q (.elem t a ch) then 1 else 0) + countMatchesL q ch

/-- Sum of `countMatchesN` over a forest. -/
def countMatchesL (q : Node → Bool) : List Node → Nat
  | [] => 0
  | n :: r => countMatchesN q n + countMatchesL q r

end

mutual

/-- Model of `decompose()` of every matching node: `none` when the node itself
matches, otherwise the node with all matching descendants removed. -/
def removeAllN (q : Node → Bool) : Node → Option Node
  | .text s => if q (.text s) then none else some (.text s)
  | .elem t a ch =>
    if q (.elem t a ch) then none else some (.elem t a (removeAllL q ch))

/-- Map of `removeAllN` over a forest. -/
def removeAllL (q : Node → Bool) : List Node → List Node
  | [] => []
  | n :: r =>
    match removeAllN q n with
    | none => removeAllL q r
    | some n' => n' :: removeAllL q r

end

mutual

/-- Remove the first node (document order) satisfying `q` from the forest;
returns the new forest and whether a node was removed. -/
def removeFirstL (q : Node → Bool) : List Node → List Node × Bool
  | [] => ([], false)
  | n :: r =>
    if q n then (r, true)
    else
      let pn := removeFirstN q n
      if pn.2 then (pn.1 :: r, true)
      else
        let p := removeFirstL q r
        (n :: p.1, p.2)

/-- Remove the first matching strict descendant of a node. -/
def removeFirstN (q : Node → Bool) : Node → Node × Bool
  | .text s => (.text s, false)
  | .elem t a ch =>
    let pc := removeFirstL q ch
    (.elem t a pc.1, pc.2)

end

/-! ## steam_guide_cleaner.py -/

/-- Characters removed by `re.sub(r'[<>:"/\\|?*]', '', ...)`. -/
def illegalChars : List Char := ['<', '>', ':', '"', '/', '\\', '|', '?', '*']

/-- Fuelled worker for `collapseUnderscores`. -/
def collapseUF : Nat → Str → Str
  | 0, s => s
  | _ + 1, [] => []
  | fuel + 1, c :: rest =>
    if c = '_' then '_' :: collapseUF fuel (rest.dropWhile (fun d => d == '_'))
    else c :: collapseUF fuel rest

/-- Model of `re.sub(r'_+', '_', s)`: each maximal run of underscores becomes one. -/
def collapseUnderscores (s : Str) : Str :=
  collapseUF s.length s

namespace Cleaner

/-- Function `sanitize_filename` of steam_guide_cleaner.py (lines 6-23): spaces to
underscores, drop illegal characters, collapse underscore runs, strip
leading/trailing underscores. -/
def sanitize_filename (filename : Str) : Str :=
  let f1 := filename.map (fun c => if c = ' ' then '_' else c)
  let f2 := f1.filter (fun c => !(illegalChars.contains c))
  stripP (fun c => c == '_') (collapseUnderscores f2)

/-- Log line `f"Removed div with ID: {div_id}"`. -/
def removedIdMsg (i : Str) : Str :=
  ("Removed div with ID: ".toList) ++ i

/-- Log line `f"Div with ID '{div_id}' not found."`. -/
def idNotFoundMsg (i : Str) : Str :=
  ("Div with ID '".toList) ++ i ++ ("' not found.".toList)

/-- Log line `f"Removed div with class '{div_class}' (occurrence {i+1})"`. -/
def removedClsMsg (c : Str) (k : Nat) : Str :=
  ("Removed div with class '".toList) ++ c ++ ("' (occurrence ".toList)
    ++ natDigits k ++ (")".toList)

/-- Log line `f"Div with class '{div_class}' not found."`. -/
def clsNotFoundMsg (c : Str) : Str :=
  ("Div with class '".toList) ++ c ++ ("' not found.".toList)

/-- One step of the id loop (lines 63-69): find the first `div` with the id;
`if div_to_remove:` is BeautifulSoup truthiness, so an empty matching div is
not decomposed and counts as not found. -/
def pruneOneId (i : Str) (doc : List Node) : List Node × Bool :=
  match findFirstL (isDivId i) doc with
  | none => (doc, false)
  | some n =>
    if nodeTruthy n then ((removeFirstL (isDivId i) doc).1, true) else (doc, false)

/-- The id loop of `download_and_clean_page` (lines 62-69), with its printed
lines collected as a log. -/
def pruneIds (ids : List Str) (doc : List Node) : List Node × List Str :=
  match ids with
  | [] => (doc, [])
  | i :: rest =>
    let p := pruneOneId i doc
    let lg := if p.2 then removedIdMsg i else idNotFoundMsg i
    let q := pruneIds rest p.1
    (q.1, lg :: q.2)

/-- The class loop of `download_and_clean_page` (lines 73-82): `find_all`
then decompose each match, or a not-found log line. -/
def pruneClasses (cls : List Str) (doc : List Node) : List Node × List Str :=
  match cls with
  | [] => (doc, [])
  | c :: rest =>
    let k := countMatchesL (isDivClass c) doc
    let d1 := if k = 0 then doc else removeAllL (isDivClass c) doc
    let lg :=
      if k = 0 then [clsNotFoundMsg c]
      else (List.range k).map (fun j => removedClsMsg c (j + 1))
    let q := pruneClasses rest d1
    (q.1, lg ++ q.2)

/-- The pruning part of `download_and_clean_page`: ids first, then classes;
a `none` argument models the Python default `None` (no pruning; an empty
list is equally falsy and also prunes nothing). -/
def prunePage (ids cls : Option (List Str)) (doc : List Node) : List Node × List Str :=
  let p := pruneIds (ids.getD []) doc
  let q := pruneClasses (cls.getD []) p.1
  (q.1, p.2 ++ q.2)

/-- Function `download_and_clean_page` (lines 25-93). `fetch` stands for the
`requests.get`/`raise_for_status`/BeautifulSoup step: any exception raised
there is the `Except.error` case, handled by the two `except` clauses which
return `(None, None)`. `pretty` stands for `soup.prettify()`. -/
def download_and_clean_page (pretty : List Node → Str)
    (fetch : Except Str (List Node))
    (divs_to_remove_ids divs_to_remove_classes : Option (List Str)) :
    Option Str × Option Str :=
  match fetch with
  | .error _ => (none, none)
  | .ok doc =>
    let guide_title :=
      match findFirstL (isDivClass ("workshopItemTitle".toList)) doc with
      | some n => if nodeTruthy n then some (stripP isPySpace (getTextN n)) else none
      | none => none
    let p := prunePage divs_to_remove_ids divs_to_remove_classes doc
    (some (pretty p.1), guide_title)

end Cleaner

/-! ## steam_guide_to_markdown.py -/

namespace Guide

/-- Constructor arguments of `SteamGuideProcessor.__init__` that the claims
depend on (`output_dir` only affects filesystem paths outside the mapping). -/
structure Config where
  cdn_base_url : Option Str
  skip_ui_images : Bool

/-- The list `self.skip_patterns` (lines 28-35). -/
def skip_patterns : List Str :=
  [ ("/public/images/sharedfiles/4-star_large.png".toList)
  , ("/public/images/sharedfiles/filterselect_blue.png".toList)
  , ("/public/images/skin_1/footerLogo_valve.png".toList)
  , ("/public/images/loyalty/reactions/".toList)
  , ("/avatars.fastly.steamstatic.com/".toList) ]

/-- Function `sanitize_filename` of steam_guide_to_markdown.py (lines 40-45); the
same computation as the cleaner's copy. -/
def sanitize_filename (filename : Str) : Str :=
  let f1 := filename.map (fun c => if c = ' ' then '_' else c)
  let f2 := f1.filter (fun c => !(illegalChars.contains c))
  stripP (fun c => c == '_') (collapseUnderscores f2)

/-- Function `should_skip_image` (lines 47-55): `pattern in url` for each pattern,
only when UI-image skipping is enabled. -/
def should_skip_image (cfg : Config) (url : Str) : Bool :=
  if !cfg.skip_ui_images then false
  else skip_patterns.any (fun p => hasOccur p url)

/-- The URL normalization of `process_images` (lines 107-112): `//` becomes
`https:`-prefixed, `/` gets the Steam host, anything else not starting with
`http` is skipped (`none`). -/
def normalizeSrc (src : Str) : Option Str :=
  if ("//".toList).isPrefixOf src then some (("https:".toList) ++ src)
  else if ("/".toList).isPrefixOf src then
    some (("https://steamcommunity.com".toList) ++ src)
  else if ("http".toList).isPrefixOf src then some src
  else none

/-- The path component of `urlparse(src)` for the URLs reaching line 121
(which all start with `http`): skip `scheme://netloc`, cut at `?` or `#`. -/
def urlPath (s : Str) : Str :=
  let clean := fun (t : Str) => t.takeWhile (fun c => c != '?' && c != '#')
  let afterNetloc := fun (t : Str) =>
    clean (t.dropWhile (fun c => c != '/' && c != '?' && c != '#'))
  if ("https://".toList).isPrefixOf s then afterNetloc (s.drop 8)
  else if ("http://".toList).isPrefixOf s then afterNetloc (s.drop 7)
  else if ("https:".toList).isPrefixOf s then clean (s.drop 6)
  else if ("http:".toList).isPrefixOf s then clean (s.drop 5)
  else clean s

/-- Model of `os.path.basename` for these forward-slash paths. -/
def basenameStr (s : Str) : Str :=
  (s.reverse.takeWhile (fun c => c != '/')).reverse

/-- The extension part of `os.path.splitext(path)`: last dot of the
basename, ignoring leading dots. -/
def extOfPath (p : Str) : Str :=
  let b := basenameStr p
  let core := b.dropWhile (fun c => c == '.')
  let tpart := core.reverse.takeWhile (fun c => c != '.')
  if tpart.length = core.length then [] else '.' :: tpart.reverse

/-- Observable record of one successful download: the URL fetched, the
generated `image_NNN.ext` filename, and the value written to the node's
`src` attribute. -/
structure SuccRec where
  url : Str
  name : Str
  newSrc : Str
deriving Repr

/-- The mutable state of `process_images`: `img_counter` (line 94),
`self.image_mapping` (insertion-ordered dict as an association list), a
count of download attempts (to index the download oracle), and the ghost
trace `succs` of successful downloads (the files actually written). -/
structure ImgState where
  img_counter : Nat
  attempts : Nat
  image_mapping : List (Str × Str)
  succs : List SuccRec
deriving Repr

/-- State at entry of `process_images`: counter 1, fresh mapping. -/
def initImgState : ImgState :=
  { img_counter := 1, attempts := 0, image_mapping := [], succs := [] }

/-- Python dict assignment `d[k] = v`: update in place, else append. -/
def updMapping (k v : Str) : List (Str × Str) → List (Str × Str)
  | [] => [(k, v)]
  | (k', v') :: rest => if k' = k then (k, v) :: rest else (k', v') :: updMapping k v rest

/-- The body of the `for img in soup.find_all('img')` loop of
`process_images` (lines 98-145) for one `img` tag: returns the tag's new
attribute list and the updated state. `dl` is the download oracle standing
for `download_image` (network success/failure), indexed by the attempt
counter so outcomes may differ between attempts. -/
def processImgAttrs (cfg : Config) (guide_name : Str) (dl : Nat → Str → Bool)
    (st : ImgState) (attrs : List (Str × Str)) : List (Str × Str) × ImgState :=
  match getAttr ("src".toList) attrs with
  | none => (attrs, st)
  | some src0 =>
    let original_src := src0
    match normalizeSrc src0 with
    | none => (attrs, st)
    | some src =>
      if should_skip_image cfg src then (attrs, st)
      else
        let fe := extOfPath (urlPath src)
        let file_ext := if fe.isEmpty then (".jpg".toList) else fe
        let image_name := ("image_".toList) ++ pad3 st.img_counter ++ file_ext
        if dl st.attempts src then
          let localRef := ("images/".toList) ++ image_name
          let newSrc :=
            match cfg.cdn_base_url with
            | some b =>
              b ++ ("/".toList) ++ guide_name ++ ("/images/".toList) ++ image_name
            | none => localRef
          (setAttr ("src".toList) newSrc attrs,
            { img_counter := st.img_counter + 1
            , attempts := st.attempts + 1
            , image_mapping := updMapping original_src localRef st.image_mapping
            , succs := st.succs ++ [⟨src, image_name, newSrc⟩] })
        else
          (attrs, { st with attempts := st.attempts + 1 })

mutual

/-- The traversal of `process_images` applied to one node of the tree: an `img` tag goes
through the loop body, every node's children are visited in document
order. -/
def processImagesN (cfg : Config) (guide_name : Str) (dl : Nat → Str → Bool) :
    Node → ImgState → Node × ImgState
  | .text s, st => (.text s, st)
  | .elem tag attrs ch, st =>
    let pa :=
      if tag = ("img".toList) then processImgAttrs cfg guide_name dl st attrs
      else (attrs, st)
    let pc := processImagesL cfg guide_name dl ch pa.2
    (.elem tag pa.1 pc.1, pc.2)

/-- The traversal of `process_images` over a forest (document order). -/
def processImagesL (cfg : Config) (guide_name : Str) (dl : Nat → Str → Bool) :
    List Node → ImgState → List Node × ImgState
  | [], st => ([], st)
  | n :: r, st =>
    let pn := processImagesN cfg guide_name dl n st
    let pr := processImagesL cfg guide_name dl r pn.2
    (pn.1 :: pr.1, pr.2)

end

/-- Function `process_images` (lines 92-145) on the whole document, starting from a
fresh state. -/
def process_images (cfg : Config) (guide_name : Str) (dl : Nat → Str → Bool)
    (doc : List Node) : List Node × ImgState :=
  processImagesL cfg guide_name dl doc initImgState

end Guide

namespace Guide

/-- Truthiness test `if node:` for an optional find result — BeautifulSoup truthiness. -/
def truthyOpt (o : Option Node) : Option Node :=
  match o with
  | some n => if nodeTruthy n then some n else none
  | none => none

/-- Whether `q` is one of the element's class tokens (CSS class selector,
any tag). -/
def hasClassToken (q : Str) (attrs : List (Str × Str)) : Bool :=
  (classTokens attrs).any (fun t => t = q)

mutual

/-- Model of `soup.select('.q')` restricted to one node: the node itself when it
bears the class token, then its matching descendants, document order. -/
def selectClassN (q : Str) : Node → List Node
  | .text _ => []
  | .elem t a ch =>
    (if hasClassToken q a then [Node.elem t a ch] else []) ++ selectClassL q ch

/-- Model of `soup.select('.q')` over a forest. -/
def selectClassL (q : Str) : List Node → List Node
  | [] => []
  | n :: r => selectClassN q n ++ selectClassL q r

end

mutual

/-- Model of `soup.select('.workshopTags a')` on one node: collect `a` elements
having a strict ancestor with the `workshopTags` class token (`inside`
records whether such an ancestor has been passed). -/
def selectTagsAnchorsN (inside : Bool) : Node → List Node
  | .text _ => []
  | .elem t a ch =>
    let inside' := inside || hasClassToken ("workshopTags".toList) a
    (if inside ∧ t = ("a".toList) then [Node.elem t a ch] else [])
      ++ selectTagsAnchorsL inside' ch

/-- Map of `selectTagsAnchorsN` over a forest. -/
def selectTagsAnchorsL (inside : Bool) : List Node → List Node
  | [] => []
  | n :: r => selectTagsAnchorsN inside n ++ selectTagsAnchorsL inside r

end

/-- First match of `re.search(r'id=(\d+)', url)`: the maximal digit run
after the first `id=` that is followed by at least one digit. -/
def findIdDigits : Str → Option Str
  | [] => none
  | c :: rest =>
    if ("id=".toList).isPrefixOf (c :: rest)
        ∧ ((c :: rest).drop 3).takeWhile isDigitCh ≠ [] then
      some (((c :: rest).drop 3).takeWhile isDigitCh)
    else findIdDigits rest

/-- The metadata record built by `extract_metadata` (lines 147-179); absent
selectors leave a field `none`. `now` stands for
`datetime.now().isoformat()`. -/
structure Metadata where
  title : Option Str
  author : Option Str
  description : Option Str
  tags : Option (List Str)
  steam_guide_id : Option Str
  source_url : Str
  imported_date : Str
deriving Repr

/-- Function `extract_metadata` (lines 147-179). The author field applies
`.get_text().replace('By ', '').strip()` to the first `.guideAuthors`
match — note `str.replace` rewrites every occurrence of `"By "`, not only
a leading one. -/
def extract_metadata (doc : List Node) (url now : Str) : Metadata :=
  let titleE := truthyOpt (findFirstL (isDivClass ("workshopItemTitle".toList)) doc)
  let authors := selectClassL ("guideAuthors".toList) doc
  let descs := selectClassL ("guideTopDescription".toList) doc
  let tagEs := selectTagsAnchorsL false doc
  { title := titleE.map (fun n => stripP isPySpace (getTextN n))
  , author := authors.head?.map
      (fun n => stripP isPySpace (replaceAll ("By ".toList) [] (getTextN n)))
  , description := descs.head?.map (fun n => stripP isPySpace (getTextN n))
  , tags :=
      if tagEs.isEmpty then none
      else some (tagEs.map (fun n => stripP isPySpace (getTextN n)))
  , steam_guide_id := findIdDigits url
  , source_url := url
  , imported_date := now }

/-- One entry of `elements_to_remove` (lines 184-200). -/
inductive RemovalSpec where
  | byId (s : Str)
  | byClass (s : Str)

/-- Predicate of `soup.find_all('div', element_spec)` for one spec. -/
def specPred : RemovalSpec → Node → Bool
  | .byId i => isDivId i
  | .byClass c => isDivClass c

/-- The list `elements_to_remove` of `clean_soup_for_conversion`, in source order. -/
def elements_to_remove : List RemovalSpec :=
  [ .byId ("global_header".toList)
  , .byId ("-1".toList)
  , .byClass ("responsive_header".toList)
  , .byClass ("responsive_page_menu_ctn".toList)
  , .byClass ("breadcrumbs".toList)
  , .byClass ("apphub_HeaderTop".toList)
  , .byClass ("apphub_sectionTabs".toList)
  , .byClass ("rightContents".toList)
  , .byClass ("sidebar".toList)
  , .byClass ("footer".toList)
  , .byId ("footer".toList)
  , .byClass ("workshopItemControls".toList)
  , .byClass ("ratingSection".toList)
  , .byClass ("workshopItemControlCtn".toList)
  , .byId ("ScrollingItemControls".toList) ]

/-- Function `clean_soup_for_conversion` (lines 181-206): decompose every div
matching each spec, specs in order. -/
def clean_soup_for_conversion (doc : List Node) : List Node :=
  elements_to_remove.foldl (fun d sp => removeAllL (specPred sp) d) doc

/-- Fuelled worker modelling `re.sub(r'\n\s*\n\s*\n', '\n\n', s)`: the
pattern matches at a newline exactly when the maximal whitespace run
starting there holds at least three newlines, and (backtracking greedily)
the match extends to the run's last newline; replacement is two newlines
and scanning resumes after the match. -/
def collapseBlankF : Nat → Str → Str
  | 0, s => s
  | _ + 1, [] => []
  | fuel + 1, c :: rest =>
    if c = '\n' then
      let run := (c :: rest).takeWhile isPySpace
      if 3 ≤ run.count '\n' then
        let lastIdx := run.length - 1 - (run.reverse.findIdx (fun d => d == '\n'))
        '\n' :: '\n' :: collapseBlankF fuel ((c :: rest).drop (lastIdx + 1))
      else c :: collapseBlankF fuel rest
    else c :: collapseBlankF fuel rest

/-- Model of `re.sub(r'\n\s*\n\s*\n', '\n\n', s)` (line 230). -/
def collapseBlank (s : Str) : Str :=
  collapseBlankF s.length s

/-- Fuelled worker for `re.sub(r'<div[^>]*>|</div>', '', s)`: a literal
`</div>`, or `<div` up to the next `>`, is deleted; otherwise advance. -/
def stripDivTagsF : Nat → Str → Str
  | 0, s => s
  | _ + 1, [] => []
  | fuel + 1, c :: rest =>
    if ("</div>".toList).isPrefixOf (c :: rest) then
      stripDivTagsF fuel ((c :: rest).drop 6)
    else if ("<div".toList).isPrefixOf (c :: rest) then
      match ((c :: rest).drop 4).findIdx? (fun d => d == '>') with
      | some k => stripDivTagsF fuel (((c :: rest).drop 4).drop (k + 1))
      | none => c :: stripDivTagsF fuel rest
    else c :: stripDivTagsF fuel rest

/-- Model of `re.sub(r'<div[^>]*>|</div>', '', s)` (line 231). -/
def stripDivTags (s : Str) : Str :=
  stripDivTagsF s.length s

/-- Fuelled worker for `re.sub(r'\[]\([^)]*\)', '', s)`: a literal `[](`
followed by non-`)` characters and a `)` is deleted; otherwise advance. -/
def removeEmptyLinksF : Nat → Str → Str
  | 0, s => s
  | _ + 1, [] => []
  | fuel + 1, c :: rest =>
    if ("[](".toList).isPrefixOf (c :: rest) then
      match ((c :: rest).drop 3).findIdx? (fun d => d == ')') with
      | some k => removeEmptyLinksF fuel (((c :: rest).drop 3).drop (k + 1))
      | none => c :: removeEmptyLinksF fuel rest
    else c :: removeEmptyLinksF fuel rest

/-- Model of `re.sub(r'\[]\([^)]*\)', '', s)` (line 247), the empty-link cleanup. -/
def removeEmptyLinks (s : Str) : Str :=
  removeEmptyLinksF s.length s

/-- The per-entry image-reference fix of `convert_to_markdown`
(lines 234-244): literal replacement of the original URL by the local
path, then rewriting of the image syntax `![](original)` (the escaped
regex is a literal match) to `![](images/basename)`. -/
def fixImageRefs (image_mapping : List (Str × Str)) (s : Str) : Str :=
  image_mapping.foldl
    (fun acc kv =>
      let acc1 := replaceAll kv.1 kv.2 acc
      replaceAll (("![](".toList) ++ kv.1 ++ (")".toList))
        (("![](images/".toList) ++ basenameStr kv.2 ++ (")".toList)) acc1)
    s

/-- Function `convert_to_markdown` (lines 208-250). `mdify` stands for the external
`markdownify` call on the serialized content element; `if content_elem:`
is BeautifulSoup truthiness, so a childless content div yields `None`. -/
def convert_to_markdown (mdify : Node → Str) (image_mapping : List (Str × Str))
    (doc : List Node) : Option Str :=
  let doc1 := clean_soup_for_conversion doc
  let contentE :=
    match truthyOpt (findFirstL (isDivClass ("guide subSections".toList)) doc1) with
    | some n => some n
    | none => findFirstL (isDivId ("profileBlock".toList)) doc1
  match truthyOpt contentE with
  | none => none
  | some el =>
    some (removeEmptyLinks (fixImageRefs image_mapping (stripDivTags (collapseBlank (mdify el)))))

/-- Function `download_page` (lines 57-73): the `fetch` oracle stands for
`requests.get` + `raise_for_status` + parsing; any exception is the error
case, caught and turned into `(None, None)`. Otherwise the guide title is
the stripped text of the first `workshopItemTitle` div, with fallback
`"Untitled_Guide"`. -/
def download_page (fetch : Except Str (List Node)) :
    Option (List Node) × Option Str :=
  match fetch with
  | .error _ => (none, none)
  | .ok doc =>
    let t :=
      match truthyOpt (findFirstL (isDivClass ("workshopItemTitle".toList)) doc) with
      | some n => stripP isPySpace (getTextN n)
      | none => ("Untitled_Guide".toList)
    (some doc, some t)

/-- Function `process_guide` (lines 252-291). File writes are elided: the returned
value is the composed front-matter + markdown document standing in for the
written `index.md` (the Python function returns its path); `None` exactly
when Python returns `None`. `yamlDump` stands for `yaml.dump`. -/
def process_guide (cfg : Config) (dl : Nat → Str → Bool) (mdify : Node → Str)
    (yamlDump : Metadata → Str) (now url : Str)
    (fetch : Except Str (List Node)) : Option Str :=
  match download_page fetch with
  | (none, _) => none
  | (some doc, gtitle) =>
    if doc.isEmpty then none
    else
      let guide_name := sanitize_filename (gtitle.getD [])
      let pi := processImagesL cfg guide_name dl doc initImgState
      let metadata := extract_metadata pi.1 url now
      match convert_to_markdown mdify pi.2.image_mapping pi.1 with
      | none => none
      | some mc =>
        if mc.isEmpty then none
        else some (("---\n".toList) ++ yamlDump metadata ++ ("---\n\n".toList) ++ mc)

end Guide

/-! ## General lemmas about the string helpers -/

theorem mem_of_mem_dropWhile {p : Char → Bool} {c : Char} :
    ∀ {l : Str}, c ∈ l.dropWhile p → c ∈ l
  | [], h => h
  | a :: l, h => by
    by_cases hp : p a
    · rw [List.dropWhile_cons, if_pos hp] at h
      exact List.mem_cons_of_mem a (mem_of_mem_dropWhile h)
    · rwa [List.dropWhile_cons, if_neg hp] at h

theorem dropTrailingP_prefix_ex (p : Char → Bool) :
    ∀ l : Str, ∃ b, l = dropTrailingP p l ++ b
  | [] => ⟨[], rfl⟩
  | c :: rest => by
    obtain ⟨b, hb⟩ := dropTrailingP_prefix_ex p rest
    by_cases h : ((dropTrailingP p rest).isEmpty && p c) = true
    · exact ⟨c :: rest, by simp [dropTrailingP, h]⟩
    · refine ⟨b, ?_⟩
      simp only [dropTrailingP, if_neg h, List.cons_append]
      exact congrArg (c :: ·) hb

theorem isPrefixOf_append_true :
    ∀ (pat a b : Str), pat.isPrefixOf a = true → pat.isPrefixOf (a ++ b) = true
  | [], _, _, _ => by simp [List.isPrefixOf]
  | _ :: _, [], _, h => by simp [List.isPrefixOf] at h
  | p :: ps, a :: as, b, h => by
    simp only [List.isPrefixOf, List.cons_append, Bool.and_eq_true] at h ⊢
    exact ⟨h.1, isPrefixOf_append_true ps as b h.2⟩

theorem hasOccur_append_left {pat : Str} :
    ∀ {a : Str} (b : Str), hasOccur pat a = true → hasOccur pat (a ++ b) = true
  | [], _, h => by simp [hasOccur] at h
  | c :: r, b, h => by
    simp only [hasOccur, Bool.or_eq_true] at h
    simp only [List.cons_append, hasOccur, Bool.or_eq_true]
    rcases h with h | h
    · exact Or.inl (by
        have := isPrefixOf_append_true pat (c :: r) b h
        simpa using this)
    · exact Or.inr (hasOccur_append_left b h)

theorem hasOccur_false_suffix {pat : Str} :
    ∀ {a b : Str}, hasOccur pat (a ++ b) = false → hasOccur pat b = false
  | [], _, h => h
  | c :: r, b, h => by
    simp only [List.cons_append, hasOccur, Bool.or_eq_false_iff] at h
    exact hasOccur_false_suffix (a := r) h.2

theorem hasOccur_false_left {pat a : Str} (b : Str)
    (h : hasOccur pat (a ++ b) = false) : hasOccur pat a = false := by
  cases ha : hasOccur pat a
  · rfl
  · rw [hasOccur_append_left b ha] at h
    exact absurd h (by simp)

theorem hasOccur_dropWhile_false {pat : Str} (p : Char → Bool) {l : Str}
    (h : hasOccur pat l = false) : hasOccur pat (l.dropWhile p) = false := by
  have hsplit : l.takeWhile p ++ l.dropWhile p = l := List.takeWhile_append_dropWhile p l
  rw [← hsplit] at h
  exact hasOccur_false_suffix h

theorem dropWhile_head_not {p : Char → Bool} :
    ∀ {l : Str} {c : Char}, (l.dropWhile p).head? = some c → p c = false
  | [], c, h => by simp at h
  | a :: l, c, h => by
    by_cases hp : p a
    · exact dropWhile_head_not (l := l) (by rwa [List.dropWhile_cons, if_pos hp] at h)
    · rw [List.dropWhile_cons, if_neg hp, List.head?_cons, Option.some.injEq] at h
      rw [← h]
      exact Bool.eq_false_iff.mpr hp

theorem collapseUF_head :
    ∀ (fuel : Nat) (s : Str), (collapseUF fuel s).head? = s.head? ∨ collapseUF fuel s = s
  | 0, s => Or.inr rfl
  | _ + 1, [] => Or.inr rfl
  | fuel + 1, c :: rest => by
    by_cases hc : c = '_'
    · subst hc
      exact Or.inl (by simp [collapseUF])
    · exact Or.inl (by simp [collapseUF, hc])

theorem mem_collapseUF :
    ∀ (fuel : Nat) {s : Str} {c : Char}, c ∈ collapseUF fuel s → c ∈ s
  | 0, _, _, h => h
  | _ + 1, [], _, h => by simp [collapseUF] at h
  | fuel + 1, a :: rest, c, h => by
    by_cases ha : a = '_'
    · subst ha
      rw [show collapseUF (fuel + 1) ('_' :: rest)
            = '_' :: collapseUF fuel (rest.dropWhile (fun d => d == '_')) from by
          simp [collapseUF]] at h
      rcases List.mem_cons.mp h with h | h
      · simp [h]
      · exact List.mem_cons_of_mem _
          (mem_of_mem_dropWhile (mem_collapseUF fuel h))
    · rw [show collapseUF (fuel + 1) (a :: rest) = a :: collapseUF fuel rest from by
          simp [collapseUF, ha]] at h
      rcases List.mem_cons.mp h with h | h
      · simp [h]
      · exact List.mem_cons_of_mem _ (mem_collapseUF fuel h)

theorem lengthDropWhileLe (p : Char → Bool) :
    ∀ l : Str, (l.dropWhile p).length ≤ l.length
  | [] => Nat.le_refl _
  | a :: l => by
    rw [List.dropWhile_cons]
    by_cases hp : p a
    · rw [if_pos hp]
      exact Nat.le_succ_of_le (lengthDropWhileLe p l)
    · rw [if_neg hp]

theorem collapseUF_noDD :
    ∀ (fuel : Nat) (s : Str), s.length ≤ fuel →
      hasOccur ['_', '_'] (collapseUF fuel s) = false
  | 0, s, h => by
    cases s with
    | nil => rfl
    | cons a l => simp at h
  | _ + 1, [], _ => rfl
  | fuel + 1, a :: rest, h => by
    have hfa : ∀ (x : Char) (R : Str), x ≠ '_' →
        hasOccur ['_', '_'] R = false → hasOccur ['_', '_'] (x :: R) = false := by
      intro x R hx hR
      show ((['_', '_'] : Str).isPrefixOf (x :: R) || hasOccur ['_', '_'] R) = false
      rw [hR, Bool.or_false]
      have hx2 : (('_' : Char) == x) = false :=
        beq_eq_false_iff_ne.mpr (fun hc => hx hc.symm)
      cases R with
      | nil => simp [List.isPrefixOf, hx2]
      | cons y ys => simp [List.isPrefixOf, hx2]
    by_cases ha : a = '_'
    · subst ha
      rw [show collapseUF (fuel + 1) ('_' :: rest)
            = '_' :: collapseUF fuel (rest.dropWhile (fun d => d == '_')) from by
          simp [collapseUF]]
      have hlen : (rest.dropWhile (fun d => d == '_')).length ≤ fuel := by
        have h1 := lengthDropWhileLe (fun d => d == '_') rest
        simp only [List.length_cons] at h
        omega
      have htail : hasOccur ['_', '_']
          (collapseUF fuel (rest.dropWhile (fun d => d == '_'))) = false :=
        collapseUF_noDD fuel _ hlen
      have hhead : (collapseUF fuel (rest.dropWhile (fun d => d == '_'))).head?
          = (rest.dropWhile (fun d => d == '_')).head? := by
        rcases collapseUF_head fuel (rest.dropWhile (fun d => d == '_')) with h1 | h1
        · exact h1
        · rw [h1]
      show ((['_', '_'] : Str).isPrefixOf ('_' :: collapseUF fuel _)
          || hasOccur ['_', '_'] (collapseUF fuel _)) = false
      rw [htail, Bool.or_false]
      cases hR : collapseUF fuel (rest.dropWhile (fun d => d == '_')) with
      | nil => rfl
      | cons x xs =>
        have hx : (x == '_') = false := by
          apply dropWhile_head_not (p := fun d => d == '_') (l := rest)
          rw [← hhead, hR]
          rfl
        have hx2 : (('_' : Char) == x) = false := by
          rw [beq_eq_false_iff_ne] at hx ⊢
          exact fun hc => hx hc.symm
        show (('_' == '_') && (('_' == x) && (([] : Str).isPrefixOf xs))) = false
        simp [hx2]
    · rw [show collapseUF (fuel + 1) (a :: rest) = a :: collapseUF fuel rest from by
          simp [collapseUF, ha]]
      have hlen : rest.length ≤ fuel := by
        simp only [List.length_cons] at h
        omega
      exact hfa a _ ha (collapseUF_noDD fuel rest hlen)

theorem dropTrailingP_getLast_not (p : Char → Bool) :
    ∀ {l : Str} {c : Char}, (dropTrailingP p l).getLast? = some c → p c = false
  | [], c, h => by simp [dropTrailingP] at h
  | a :: rest, c, h => by
    by_cases hcond : ((dropTrailingP p rest).isEmpty && p a) = true
    · rw [show dropTrailingP p (a :: rest) = [] from by
          simp only [dropTrailingP]; rw [if_pos hcond]] at h
      simp at h
    · rw [show dropTrailingP p (a :: rest) = a :: dropTrailingP p rest from by
          simp only [dropTrailingP]; rw [if_neg hcond]] at h
      cases hr : dropTrailingP p rest with
      | nil =>
        rw [hr] at h
        simp only [List.getLast?_singleton, Option.some.injEq] at h
        subst h
        rw [hr] at hcond
        simpa using hcond
      | cons x xs =>
        rw [hr, List.getLast?_cons_cons] at h
        exact dropTrailingP_getLast_not p (l := rest) (by rw [hr]; exact h)

theorem dropTrailingP_head (p : Char → Bool) (l : Str) :
    dropTrailingP p l = [] ∨ (dropTrailingP p l).head? = l.head? := by
  cases l with
  | nil => exact Or.inl rfl
  | cons a rest =>
    by_cases hcond : ((dropTrailingP p rest).isEmpty && p a) = true
    · exact Or.inl (by simp only [dropTrailingP]; rw [if_pos hcond])
    · refine Or.inr ?_
      rw [show dropTrailingP p (a :: rest) = a :: dropTrailingP p rest from by
          simp only [dropTrailingP]; rw [if_neg hcond]]
      rfl

theorem mem_dropTrailingP {p : Char → Bool} {c : Char} {l : Str}
    (h : c ∈ dropTrailingP p l) : c ∈ l := by
  obtain ⟨b, hb⟩ := dropTrailingP_prefix_ex p l
  rw [hb]
  exact List.mem_append_left b h

theorem stripP_preserves_noDD (p : Char → Bool) (l : Str)
    (h : hasOccur ['_', '_'] l = false) :
    hasOccur ['_', '_'] (stripP p l) = false := by
  have hdw : hasOccur ['_', '_'] (l.dropWhile p) = false := hasOccur_dropWhile_false p h
  obtain ⟨b, hb⟩ := dropTrailingP_prefix_ex p (l.dropWhile p)
  refine hasOccur_false_left b ?_
  show hasOccur ['_', '_'] (dropTrailingP p (l.dropWhile p) ++ b) = false
  rw [← hb]
  exact hdw

theorem stripP_head_not (p : Char → Bool) (l : Str) {c : Char}
    (h : (stripP p l).head? = some c) : p c = false := by
  rcases dropTrailingP_head p (l.dropWhile p) with h1 | h1
  · rw [show stripP p l = dropTrailingP p (l.dropWhile p) from rfl, h1] at h
    simp at h
  · rw [show stripP p l = dropTrailingP p (l.dropWhile p) from rfl, h1] at h
    exact dropWhile_head_not h

theorem mem_sanitize {s : Str} {c : Char}
    (h : c ∈ Cleaner.sanitize_filename s) :
    c ∈ (s.map (fun d => if d = ' ' then '_' else d)).filter
        (fun d => !(illegalChars.contains d)) := by
  have h1 : c ∈ dropTrailingP (fun d => d == '_')
      ((collapseUnderscores ((s.map (fun d => if d = ' ' then '_' else d)).filter
        (fun d => !(illegalChars.contains d)))).dropWhile (fun d => d == '_')) := h
  have h2 := mem_of_mem_dropWhile (mem_dropTrailingP h1)
  exact mem_collapseUF _ h2

/-- C9: `sanitize_filename` replaces spaces with underscores, strips the
characters `<>:"/\|?*`, collapses runs of underscores to one, and trims
leading/trailing underscores (so the output has no space, no illegal
character, no doubled underscore, and neither starts nor ends with an
underscore); `sanitize_filename("My: Guide / Test") = "My_Guide_Test"`;
and the two copies in the two source files compute the same function. -/
theorem c9_sanitize_filename :
    (∀ s : Str, Cleaner.sanitize_filename s = Guide.sanitize_filename s)
    ∧ Cleaner.sanitize_filename ("My: Guide / Test".toList) = ("My_Guide_Test".toList)
    ∧ (∀ s : Str, (Cleaner.sanitize_filename s).all
        (fun c => !(c == ' ' || illegalChars.contains c)) = true)
    ∧ (∀ s : Str, hasOccur ("__".toList) (Cleaner.sanitize_filename s) = false)
    ∧ (∀ s : Str, ((Cleaner.sanitize_filename s).head? == some '_') = false
        ∧ ((Cleaner.sanitize_filename s).getLast? == some '_') = false) := by
  refine ⟨fun s => rfl, by decide, ?_, ?_, ?_⟩
  · intro s
    rw [List.all_eq_true]
    intro c hc
    have h2 := mem_sanitize hc
    rw [List.mem_filter] at h2
    obtain ⟨h3, h4⟩ := h2
    rw [List.mem_map] at h3
    obtain ⟨d, _, hd⟩ := h3
    have hne : c ≠ ' ' := by
      intro hcsp
      by_cases hd' : d = ' '
      · rw [if_pos hd'] at hd
        rw [← hd] at hcsp
        exact absurd hcsp (by decide)
      · rw [if_neg hd'] at hd
        rw [← hd] at hcsp
        exact hd' hcsp
    have hcontains : illegalChars.contains c = false := by
      cases hcc : illegalChars.contains c
      · rfl
      · rw [hcc] at h4
        exact absurd h4 (by decide)
    have : (c == ' ' || illegalChars.contains c) = false := by
      rw [Bool.or_eq_false_iff]
      exact ⟨beq_eq_false_iff_ne.mpr hne, hcontains⟩
    rw [this]
    rfl
  · intro s
    rw [show ("__".toList) = (['_', '_'] : Str) from rfl]
    rw [show Cleaner.sanitize_filename s = stripP (fun d => d == '_')
        (collapseUnderscores ((s.map (fun d => if d = ' ' then '_' else d)).filter
          (fun d => !(illegalChars.contains d)))) from rfl]
    exact stripP_preserves_noDD _ _ (collapseUF_noDD _ _ (Nat.le_refl _))
  · intro s
    constructor
    · cases hh : (Cleaner.sanitize_filename s).head? with
      | none => rfl
      | some c =>
        rw [show Cleaner.sanitize_filename s = stripP (fun d => d == '_')
            (collapseUnderscores ((s.map (fun d => if d = ' ' then '_' else d)).filter
              (fun d => !(illegalChars.contains d)))) from rfl] at hh
        have hc := stripP_head_not _ _ hh
        show ((some c : Option Char) == some '_') = false
        rw [show ((some c : Option Char) == some '_') = (c == '_') from rfl]
        exact hc
    · cases hh : (Cleaner.sanitize_filename s).getLast? with
      | none => rfl
      | some c =>
        rw [show Cleaner.sanitize_filename s = dropTrailingP (fun d => d == '_')
            (((collapseUnderscores ((s.map (fun d => if d = ' ' then '_' else d)).filter
              (fun d => !(illegalChars.contains d))))).dropWhile (fun d => d == '_'))
            from rfl] at hh
        have hc := dropTrailingP_getLast_not _ hh
        show ((some c : Option Char) == some '_') = false
        rw [show ((some c : Option Char) == some '_') = (c == '_') from rfl]
        exact hc

/-! ## Lemmas about `replaceAll` -/

theorem isPrefixOf_self : ∀ l : Str, l.isPrefixOf l = true
  | [] => rfl
  | a :: l => by
    simp only [List.isPrefixOf, Bool.and_eq_true]
    exact ⟨by simp, isPrefixOf_self l⟩

theorem replaceAllF_no_occur :
    ∀ (fuel : Nat) (pat repl s : Str), hasOccur pat s = false →
      replaceAllF pat repl fuel s = s
  | 0, _, _, _, _ => rfl
  | _ + 1, _, _, [], _ => rfl
  | fuel + 1, pat, repl, c :: rest, h => by
    simp only [hasOccur, Bool.or_eq_false_iff] at h
    rw [show replaceAllF pat repl (fuel + 1) (c :: rest)
        = if pat ≠ [] ∧ pat.isPrefixOf (c :: rest) then
            repl ++ replaceAllF pat repl fuel ((c :: rest).drop pat.length)
          else c :: replaceAllF pat repl fuel rest from rfl]
    rw [if_neg (fun hc => by rw [h.1] at hc; exact absurd hc.2 (by simp))]
    rw [replaceAllF_no_occur fuel pat repl rest h.2]

theorem replaceAll_no_occur (pat repl s : Str) (h : hasOccur pat s = false) :
    replaceAll pat repl s = s :=
  replaceAllF_no_occur s.length pat repl s h

theorem replaceAllF_fuel_invariant :
    ∀ (f1 f2 : Nat) (pat repl s : Str), s.length ≤ f1 → s.length ≤ f2 →
      replaceAllF pat repl f1 s = replaceAllF pat repl f2 s
  | 0, f2, pat, repl, s, h1, _ => by
    cases s with
    | nil => cases f2 with
      | zero => rfl
      | succ f2 => rfl
    | cons a l => simp at h1
  | _ + 1, 0, pat, repl, s, _, h2 => by
    cases s with
    | nil => rfl
    | cons a l => simp at h2
  | f1 + 1, f2 + 1, pat, repl, s, h1, h2 => by
    cases s with
    | nil => rfl
    | cons c rest =>
      simp only [List.length_cons] at h1 h2
      rw [show replaceAllF pat repl (f1 + 1) (c :: rest)
          = if pat ≠ [] ∧ pat.isPrefixOf (c :: rest) then
              repl ++ replaceAllF pat repl f1 ((c :: rest).drop pat.length)
            else c :: replaceAllF pat repl f1 rest from rfl]
      rw [show replaceAllF pat repl (f2 + 1) (c :: rest)
          = if pat ≠ [] ∧ pat.isPrefixOf (c :: rest) then
              repl ++ replaceAllF pat repl f2 ((c :: rest).drop pat.length)
            else c :: replaceAllF pat repl f2 rest from rfl]
      by_cases hcond : pat ≠ [] ∧ pat.isPrefixOf (c :: rest) = true
      · rw [if_pos hcond, if_pos hcond]
        have hplen : 1 ≤ pat.length := by
          cases pat with
          | nil => exact absurd rfl hcond.1
          | cons p ps => simp
        have hlen : ((c :: rest).drop pat.length).length ≤ f1 := by
          simp only [List.length_drop, List.length_cons]
          omega
        have hlen2 : ((c :: rest).drop pat.length).length ≤ f2 := by
          simp only [List.length_drop, List.length_cons]
          omega
        rw [replaceAllF_fuel_invariant f1 f2 pat repl _ hlen hlen2]
      · rw [if_neg hcond, if_neg hcond]
        rw [replaceAllF_fuel_invariant f1 f2 pat repl rest (by omega) (by omega)]

theorem replaceAll_prefix_peel (pat repl rest : Str) (hpat : pat ≠ []) :
    replaceAll pat repl (pat ++ rest) = repl ++ replaceAll pat repl rest := by
  cases hp : pat with
  | nil => exact absurd hp hpat
  | cons p ps =>
    rw [← hp]
    have hlen : (pat ++ rest).length = pat.length + rest.length := List.length_append pat rest
    have hone : 1 ≤ pat.length := by rw [hp]; simp
    rw [show replaceAll pat repl (pat ++ rest)
        = replaceAllF pat repl (pat ++ rest).length (pat ++ rest) from rfl]
    cases hL : (pat ++ rest).length with
    | zero =>
      rw [hL] at hlen
      omega
    | succ m =>
      have hcons : ∃ c cs, pat ++ rest = c :: cs := by
        cases hq : pat ++ rest with
        | nil => rw [hq] at hL; simp at hL
        | cons c cs => exact ⟨c, cs, rfl⟩
      obtain ⟨c, cs, hq⟩ := hcons
      rw [hq]
      rw [show replaceAllF pat repl (m + 1) (c :: cs)
          = if pat ≠ [] ∧ pat.isPrefixOf (c :: cs) then
              repl ++ replaceAllF pat repl m ((c :: cs).drop pat.length)
            else c :: replaceAllF pat repl m cs from rfl]
      have hpre : pat.isPrefixOf (c :: cs) = true := by
        rw [← hq]
        exact isPrefixOf_append_true pat pat rest (isPrefixOf_self pat)
      rw [if_pos ⟨hpat, hpre⟩]
      have hdrop : (c :: cs).drop pat.length = rest := by
        rw [← hq]
        exact List.drop_left pat rest
      rw [hdrop]
      congr 1
      have hm : rest.length ≤ m := by
        rw [hlen] at hL
        omega
      exact replaceAllF_fuel_invariant m rest.length pat repl rest hm (Nat.le_refl _)

/-! ## Claim C8 -/

/-- C8: on any exception during page retrieval or parsing (the error case
of the fetch oracle, covering connection failures, `raise_for_status` on a
non-2xx response, and any other exception of the `try` block),
`download_and_clean_page` returns `(None, None)` and `process_guide`
returns `None`; both embedded functions are total, so no exception
propagates to the caller. -/
theorem c8_fetch_error_handling :
    (∀ (pretty : List Node → Str) (ids cls : Option (List Str)) (e : Str),
      Cleaner.download_and_clean_page pretty (.error e) ids cls = (none, none))
    ∧ (∀ (cfg : Guide.Config) (dl : Nat → Str → Bool) (mdify : Node → Str)
        (yamlDump : Guide.Metadata → Str) (now url e : Str),
      Guide.process_guide cfg dl mdify yamlDump now url (.error e) = none) :=
  ⟨fun _ _ _ _ => rfl, fun _ _ _ _ _ _ _ => rfl⟩

/-! ## Claim C1 -/

/-- C1 counterexample: in the claim's scenario (image src
`//foo.com/bar.png`, no CDN, skipping enabled, download succeeding), the
image mapping does NOT gain the key `https://foo.com/bar.png`: the code
stores `original_src`, captured before protocol normalization. -/
theorem c1_mapping_key_cex :
    ((Guide.process_images { cdn_base_url := none, skip_ui_images := true }
        ("Guide".toList) (fun _ _ => true)
        [Node.elem ("img".toList)
          [(("src".toList), ("//foo.com/bar.png".toList))] []]).2.image_mapping.any
      (fun kv => kv.1 = ("https://foo.com/bar.png".toList))) = false := by decide

/-- C1 (amended): for an image node with src `//foo.com/bar.png`, processed
by `process_images` as the first downloadable image with no CDN base and a
succeeding download, the node's src is rewritten to `images/image_001.png`
and the mapping gains the key `//foo.com/bar.png` — the original src as it
appeared in the document, captured before normalization — mapped to
`images/image_001.png` (the download itself fetches the normalized
`https://foo.com/bar.png`). -/
theorem c1_first_image_amended :
    Guide.process_images { cdn_base_url := none, skip_ui_images := true }
        ("Guide".toList) (fun _ _ => true)
        [Node.elem ("img".toList)
          [(("src".toList), ("//foo.com/bar.png".toList))] []]
      = ([Node.elem ("img".toList)
            [(("src".toList), ("images/image_001.png".toList))] []],
         { img_counter := 2, attempts := 1
         , image_mapping :=
             [(("//foo.com/bar.png".toList), ("images/image_001.png".toList))]
         , succs := [⟨("https://foo.com/bar.png".toList), ("image_001.png".toList),
             ("images/image_001.png".toList)⟩] }) := rfl

/-! ## Claim C2 -/

/-- C2 counterexample: with the single-entry mapping {"//foo.com/bar.png" ↦
"images/image_001.png"} and converted text `![](//foo.com/bar.png)` (what
markdownify emits for an image with empty alt text), the Markdown returned
by `convert_to_markdown` is just `"!"`: the final empty-link cleanup
`\[]\([^)]*\)` deletes the `[](...)` core of the rewritten image
reference, so the local path does not appear, contradicting the claim. -/
theorem c2_roundtrip_cex :
    Guide.convert_to_markdown (fun _ => ("![](//foo.com/bar.png)".toList))
        [(("//foo.com/bar.png".toList), ("images/image_001.png".toList))]
        [Node.elem ("div".toList)
          [(("class".toList), ("guide subSections".toList))]
          [Node.text ("x".toList)]]
      = some ("!".toList)
    ∧ hasOccur ("images/image_001.png".toList) ("!".toList) = false := by
  exact ⟨rfl, rfl⟩

/-- C2 (amended): for every mapping entry the conversion replaces literal
occurrences of the original URL with the local path, but the final
empty-link cleanup `[]()` also deletes the `[](...)` core of empty-alt
image references: a bare occurrence of the original URL survives as the
local path (and the original URL is gone), while an occurrence inside
`![](original)` is deleted entirely — leaving `!`, with neither the
original URL nor its local path. -/
theorem c2_roundtrip_amended :
    (Guide.convert_to_markdown
        (fun _ => ("see //foo.com/bar.png and ![](//foo.com/bar.png)".toList))
        [(("//foo.com/bar.png".toList), ("images/image_001.png".toList))]
        [Node.elem ("div".toList)
          [(("class".toList), ("guide subSections".toList))]
          [Node.text ("x".toList)]]
      = some ("see images/image_001.png and !".toList))
    ∧ hasOccur ("//foo.com/bar.png".toList)
        ("see images/image_001.png and !".toList) = false
    ∧ hasOccur ("images/image_001.png".toList)
        ("see images/image_001.png and !".toList) = true
    ∧ (Guide.convert_to_markdown (fun _ => ("![](//foo.com/bar.png)".toList))
        [(("//foo.com/bar.png".toList), ("images/image_001.png".toList))]
        [Node.elem ("div".toList)
          [(("class".toList), ("guide subSections".toList))]
          [Node.text ("x".toList)]]
      = some ("!".toList)) := by
  exact ⟨rfl, by decide, by decide, rfl⟩

/-! ## Claim C5 -/

/-- C5 counterexample: for a first `.guideAuthors` node with text
`"By Guides By Bob"`, the code's `replace('By ', '')` also removes the
non-leading `"By "`, so the author is `"Guides Bob"`, not the claim's
`"Guides By Bob"`. -/
theorem c5_author_cex :
    ¬ ((Guide.extract_metadata
          [Node.elem ("div".toList)
            [(("class".toList), ("guideAuthors".toList))]
            [Node.text ("By Guides By Bob".toList)]]
          ("u".toList) ("n".toList)).author
        = some ("Guides By Bob".toList)) := by decide

/-- C5 (amended): the author field produced by `extract_metadata` is the
text of the first `.guideAuthors` node with EVERY (leftmost,
non-overlapping) occurrence of `"By "` removed — not only a leading one —
and surrounding whitespace trimmed: when the text is `"By " ++ rest` and
`rest` has no further occurrence the result is `rest` trimmed, and for
`"By Guides By Bob"` the inner `"By "` is removed as well, giving
`"Guides Bob"`. -/
theorem c5_author_amended :
    (∀ (url now rest : Str), hasOccur ("By ".toList) rest = false →
      (Guide.extract_metadata
          [Node.elem ("div".toList)
            [(("class".toList), ("guideAuthors".toList))]
            [Node.text (("By ".toList) ++ rest)]] url now).author
        = some (stripP isPySpace rest))
    ∧ (Guide.extract_metadata
          [Node.elem ("div".toList)
            [(("class".toList), ("guideAuthors".toList))]
            [Node.text ("By Guides By Bob".toList)]]
          ("u".toList) ("n".toList)).author
        = some ("Guides Bob".toList) := by
  constructor
  · intro url now rest hno
    show some (stripP isPySpace (replaceAll ("By ".toList) []
        ((("By ".toList) ++ rest) ++ []))) = some (stripP isPySpace rest)
    rw [List.append_nil]
    rw [replaceAll_prefix_peel ("By ".toList) [] rest (by decide)]
    rw [List.nil_append]
    rw [replaceAll_no_occur ("By ".toList) [] rest hno]
  · decide

/-- C5 witness: the amended theorem applied at rest = `"John"`. -/
theorem c5_author_amended_witness :
    hasOccur ("By ".toList) ("John".toList) = false
    ∧ (Guide.extract_metadata
          [Node.elem ("div".toList)
            [(("class".toList), ("guideAuthors".toList))]
            [Node.text (("By ".toList) ++ ("John".toList))]]
          ("u".toList) ("n".toList)).author
        = some (stripP isPySpace ("John".toList)) :=
  ⟨by decide, c5_author_amended.1 ("u".toList) ("n".toList) ("John".toList) (by decide)⟩

/-! ## Lemmas about `process_images` -/

mutual

theorem processImagesN_pres (cfg : Guide.Config) (g : Str) (dl : Nat → Str → Bool)
    (P : Guide.ImgState → Prop)
    (hstep : ∀ st attrs, P st → P (Guide.processImgAttrs cfg g dl st attrs).2) :
    ∀ (n : Node) (st : Guide.ImgState), P st → P (Guide.processImagesN cfg g dl n st).2
  | .text _, _, h => h
  | .elem tag attrs ch, st, h => by
    have h1 : P (if tag = ("img".toList)
        then Guide.processImgAttrs cfg g dl st attrs else (attrs, st)).2 := by
      by_cases ht : tag = ("img".toList)
      · rw [if_pos ht]
        exact hstep st attrs h
      · rw [if_neg ht]
        exact h
    exact processImagesL_pres cfg g dl P hstep ch _ h1

theorem processImagesL_pres (cfg : Guide.Config) (g : Str) (dl : Nat → Str → Bool)
    (P : Guide.ImgState → Prop)
    (hstep : ∀ st attrs, P st → P (Guide.processImgAttrs cfg g dl st attrs).2) :
    ∀ (l : List Node) (st : Guide.ImgState), P st → P (Guide.processImagesL cfg g dl l st).2
  | [], _, h => h
  | n :: r, st, h =>
    processImagesL_pres cfg g dl P hstep r _ (processImagesN_pres cfg g dl P hstep n st h)

end

/-- Case analysis of the loop body's effect on the state: unchanged
(no/relative src or UI-skip), a failed download (attempt counted only), or
a successful download appending a `succs` record and a mapping entry with
the current counter's generated filename. -/
theorem processImgAttrs_state_chr (cfg : Guide.Config) (g : Str) (dl : Nat → Str → Bool)
    (st : Guide.ImgState) (attrs : List (Str × Str)) :
    (Guide.processImgAttrs cfg g dl st attrs).2 = st
    ∨ (Guide.processImgAttrs cfg g dl st attrs).2 = { st with attempts := st.attempts + 1 }
    ∨ ∃ (origKey src e : Str),
        Guide.normalizeSrc origKey = some src
        ∧ Guide.should_skip_image cfg src = false
        ∧ (Guide.processImgAttrs cfg g dl st attrs).2 =
            { img_counter := st.img_counter + 1
            , attempts := st.attempts + 1
            , image_mapping := Guide.updMapping origKey
                (("images/".toList) ++ (("image_".toList) ++ pad3 st.img_counter ++ e))
                st.image_mapping
            , succs := st.succs ++ [⟨src, ("image_".toList) ++ pad3 st.img_counter ++ e,
                (match cfg.cdn_base_url with
                 | some b => b ++ ("/".toList) ++ g ++ ("/images/".toList)
                     ++ (("image_".toList) ++ pad3 st.img_counter ++ e)
                 | none => ("images/".toList)
                     ++ (("image_".toList) ++ pad3 st.img_counter ++ e))⟩] } := by
  unfold Guide.processImgAttrs
  split
  · exact Or.inl rfl
  · rename_i src0 hsrc
    split
    · exact Or.inl rfl
    · rename_i src hnorm
      split
      · exact Or.inl rfl
      · rename_i hskip
        split
        · rename_i hdl
          exact Or.inr (Or.inr ⟨src0, src, Guide.extOfPath (Guide.urlPath src) |>.isEmpty
              |> (fun b => if b then (".jpg".toList) else Guide.extOfPath (Guide.urlPath src)),
            hnorm, Bool.eq_false_iff.mpr hskip, rfl⟩)
        · rename_i hdl
          exact Or.inr (Or.inl rfl)

theorem get_append_left_gen {α : Type _} :
    ∀ (l1 l2 : List α) (j : Nat) (h : j < l1.length) (h2 : j < (l1 ++ l2).length),
      (l1 ++ l2).get ⟨j, h2⟩ = l1.get ⟨j, h⟩
  | [], _, j, h, _ => by simp at h
  | a :: l1, l2, 0, _, _ => rfl
  | a :: l1, l2, j + 1, h, h2 => by
    have h' : j < l1.length := by
      simp only [List.length_cons] at h
      omega
    have h2' : j < (l1 ++ l2).length := by
      simp only [List.length_append, List.length_cons] at h2 ⊢
      omega
    show (l1 ++ l2).get ⟨j, h2'⟩ = l1.get ⟨j, h'⟩
    exact get_append_left_gen l1 l2 j h' h2'

theorem get_append_length_gen {α : Type _} :
    ∀ (l : List α) (x : α) (h : l.length < (l ++ [x]).length),
      (l ++ [x]).get ⟨l.length, h⟩ = x
  | [], _, _ => rfl
  | a :: l, x, h => by
    have h' : l.length < (l ++ [x]).length := by
      simp only [List.length_append, List.length_singleton]
      omega
    show (l ++ [x]).get ⟨l.length, h'⟩ = x
    exact get_append_length_gen l x h'

theorem updMapping_mem {k v : Str} {kv : Str × Str} :
    ∀ {m : List (Str × Str)}, kv ∈ Guide.updMapping k v m → kv = (k, v) ∨ kv ∈ m
  | [], h => by
    simp only [Guide.updMapping, List.mem_singleton] at h
    exact Or.inl h
  | (k', v') :: rest, h => by
    by_cases hk : k' = k
    · rw [show Guide.updMapping k v ((k', v') :: rest) = (k, v) :: rest from by
          simp [Guide.updMapping, hk]] at h
      rcases List.mem_cons.mp h with h | h
      · exact Or.inl h
      · exact Or.inr (List.mem_cons_of_mem _ h)
    · rw [show Guide.updMapping k v ((k', v') :: rest)
          = (k', v') :: Guide.updMapping k v rest from by
          simp [Guide.updMapping, hk]] at h
      rcases List.mem_cons.mp h with h | h
      · exact Or.inr (by simp [h])
      · rcases updMapping_mem h with h | h
        · exact Or.inl h
        · exact Or.inr (List.mem_cons_of_mem _ h)

theorem normalizeSrc_starts_http {s u : Str} (h : Guide.normalizeSrc s = some u) :
    ("http".toList).isPrefixOf u = true := by
  unfold Guide.normalizeSrc at h
  by_cases h1 : ("//".toList).isPrefixOf s = true
  · rw [if_pos h1, Option.some.injEq] at h
    rw [← h]
    exact isPrefixOf_append_true ("http".toList) ("https:".toList) s (by decide)
  · rw [if_neg h1] at h
    by_cases h2 : ("/".toList).isPrefixOf s = true
    · rw [if_pos h2, Option.some.injEq] at h
      rw [← h]
      exact isPrefixOf_append_true ("http".toList)
        ("https://steamcommunity.com".toList) s (by decide)
    · rw [if_neg h2] at h
      by_cases h3 : ("http".toList).isPrefixOf s = true
      · rw [if_pos h3, Option.some.injEq] at h
        rw [← h]
        exact h3
      · rw [if_neg h3] at h
        exact absurd h (by simp)

theorem normalizeSrc_fix {u : Str} (h : ("http".toList).isPrefixOf u = true) :
    Guide.normalizeSrc u = some u := by
  cases u with
  | nil => exact absurd h (by decide)
  | cons c cs =>
    have hc : 'h' = c := by
      have h2 : (('h' :: ("ttp".toList)).isPrefixOf (c :: cs)) = true := h
      simp only [List.isPrefixOf, Bool.and_eq_true] at h2
      exact beq_iff_eq.mp h2.1
    subst hc
    have h1 : ("//".toList).isPrefixOf ('h' :: cs) = false := by
      show (((('/') : Char) == 'h') && (("/".toList).isPrefixOf cs)) = false
      rw [show ((('/') : Char) == 'h') = false from by decide, Bool.false_and]
    have h2 : ("/".toList).isPrefixOf ('h' :: cs) = false := by
      show (((('/') : Char) == 'h') && (([] : Str).isPrefixOf cs)) = false
      rw [show ((('/') : Char) == 'h') = false from by decide, Bool.false_and]
    unfold Guide.normalizeSrc
    rw [if_neg (fun hc2 => by rw [h1] at hc2; exact absurd hc2 (by decide))]
    rw [if_neg (fun hc2 => by rw [h2] at hc2; exact absurd hc2 (by decide))]
    rw [if_pos h]

/-! ## Claim C3 -/

/-- C3: filenames assigned by `process_images` to the recorded (successful,
non-skipped) downloads are strictly sequential `image_NNN`, zero-padded to
3 digits and starting at `image_001`, regardless of how many images were
skipped earlier in document order: the j-th recorded download (0-based) is
named `image_{j+1}{ext}`, and the final counter equals 1 + the number of
recorded downloads, so the counter advances exactly on non-skipped
downloads that succeed and never on skipped images. -/
theorem c3_sequential_filenames (cfg : Guide.Config) (g : Str)
    (dl : Nat → Str → Bool) (doc : List Node) :
    (Guide.process_images cfg g dl doc).2.img_counter
      = (Guide.process_images cfg g dl doc).2.succs.length + 1
    ∧ ∀ (j : Nat) (hj : j < (Guide.process_images cfg g dl doc).2.succs.length),
      ∃ e, ((Guide.process_images cfg g dl doc).2.succs.get ⟨j, hj⟩).name
        = ("image_".toList) ++ pad3 (j + 1) ++ e := by
  have hstep : ∀ (st : Guide.ImgState) (attrs : List (Str × Str)),
      (st.img_counter = st.succs.length + 1
        ∧ ∀ (j : Nat) (hj : j < st.succs.length),
          ∃ e, (st.succs.get ⟨j, hj⟩).name = ("image_".toList) ++ pad3 (j + 1) ++ e) →
      ((Guide.processImgAttrs cfg g dl st attrs).2.img_counter
          = (Guide.processImgAttrs cfg g dl st attrs).2.succs.length + 1
        ∧ ∀ (j : Nat) (hj : j < (Guide.processImgAttrs cfg g dl st attrs).2.succs.length),
          ∃ e, ((Guide.processImgAttrs cfg g dl st attrs).2.succs.get ⟨j, hj⟩).name
            = ("image_".toList) ++ pad3 (j + 1) ++ e) := by
    intro st attrs hP
    rcases processImgAttrs_state_chr cfg g dl st attrs with hcase | hcase | hcase
    · rw [hcase]
      exact hP
    · rw [hcase]
      exact ⟨hP.1, hP.2⟩
    · obtain ⟨origKey, src, e, _, _, heq⟩ := hcase
      rw [heq]
      constructor
      · show st.img_counter + 1 = (st.succs ++ [_]).length + 1
        rw [List.length_append, List.length_singleton, hP.1]
      · intro j hj
        by_cases hlt : j < st.succs.length
        · rw [get_append_left_gen st.succs _ j hlt hj]
          exact hP.2 j hlt
        · have hj_eq : j = st.succs.length := by
            have : j < (st.succs ++ [_]).length := hj
            rw [List.length_append, List.length_singleton] at this
            omega
          subst hj_eq
          rw [get_append_length_gen st.succs _ hj]
          exact ⟨e, by rw [← hP.1]⟩
  exact processImagesL_pres cfg g dl
    (fun st => st.img_counter = st.succs.length + 1
      ∧ ∀ (j : Nat) (hj : j < st.succs.length),
        ∃ e, (st.succs.get ⟨j, hj⟩).name = ("image_".toList) ++ pad3 (j + 1) ++ e)
    hstep doc Guide.initImgState ⟨rfl, fun j hj => absurd hj (Nat.not_lt_zero j)⟩

/-- C3 witness: a document whose first image is a skipped UI image and
whose second downloads successfully; the single recorded filename (index
j = 0) is `image_001.png`. -/
theorem c3_sequential_filenames_witness :
    (0 < (Guide.process_images { cdn_base_url := none, skip_ui_images := true }
        ("G".toList) (fun _ _ => true)
        [Node.elem ("img".toList)
          [(("src".toList), ("//avatars.fastly.steamstatic.com/p.png".toList))] [],
         Node.elem ("img".toList)
          [(("src".toList), ("//foo.com/bar.png".toList))] []]).2.succs.length)
    ∧ ∃ e, (((Guide.process_images { cdn_base_url := none, skip_ui_images := true }
        ("G".toList) (fun _ _ => true)
        [Node.elem ("img".toList)
          [(("src".toList), ("//avatars.fastly.steamstatic.com/p.png".toList))] [],
         Node.elem ("img".toList)
          [(("src".toList), ("//foo.com/bar.png".toList))] []]).2.succs.get
        ⟨0, by decide⟩).name)
      = ("image_".toList) ++ pad3 (0 + 1) ++ e :=
  ⟨by decide,
   (c3_sequential_filenames { cdn_base_url := none, skip_ui_images := true }
      ("G".toList) (fun _ _ => true)
      [Node.elem ("img".toList)
        [(("src".toList), ("//avatars.fastly.steamstatic.com/p.png".toList))] [],
       Node.elem ("img".toList)
        [(("src".toList), ("//foo.com/bar.png".toList))] []]).2 0 (by decide)⟩

/-! ## Claim C4 -/

/-- C4: for every image node whose normalized URL `u` contains a configured
UI-chrome skip substring (`should_skip_image cfg u` true, which requires
UI-image skipping to be enabled), `u` is never a key of the image mapping
produced by `process_images` on any document, and such a node's attribute
list — in particular its src attribute — is left unchanged by the
traversal (only its children are processed). -/
theorem c4_skip_invariant (cfg : Guide.Config) (g : Str) (dl : Nat → Str → Bool)
    (s u : Str) (hnorm : Guide.normalizeSrc s = some u)
    (hskip : Guide.should_skip_image cfg u = true) :
    (∀ (doc : List Node) (kv : Str × Str),
      kv ∈ (Guide.process_images cfg g dl doc).2.image_mapping → kv.1 ≠ u)
    ∧ (∀ (attrs : List (Str × Str)) (ch : List Node) (st : Guide.ImgState),
        getAttr ("src".toList) attrs = some s →
        Guide.processImagesN cfg g dl (.elem ("img".toList) attrs ch) st
          = (.elem ("img".toList) attrs (Guide.processImagesL cfg g dl ch st).1,
             (Guide.processImagesL cfg g dl ch st).2)) := by
  constructor
  · intro doc kv hkv
    have hstep : ∀ (st : Guide.ImgState) (attrs : List (Str × Str)),
        (∀ kv2 ∈ st.image_mapping, ∃ w, Guide.normalizeSrc kv2.1 = some w
          ∧ Guide.should_skip_image cfg w = false) →
        (∀ kv2 ∈ (Guide.processImgAttrs cfg g dl st attrs).2.image_mapping,
          ∃ w, Guide.normalizeSrc kv2.1 = some w
            ∧ Guide.should_skip_image cfg w = false) := by
      intro st attrs hP
      rcases processImgAttrs_state_chr cfg g dl st attrs with hcase | hcase | hcase
      · rw [hcase]
        exact hP
      · rw [hcase]
        exact hP
      · obtain ⟨origKey, src, e, hn, hs, heq⟩ := hcase
        rw [heq]
        intro kv2 hkv2
        rcases updMapping_mem hkv2 with h | h
        · rw [h]
          exact ⟨src, hn, hs⟩
        · exact hP kv2 h
    have main := processImagesL_pres cfg g dl
      (fun st => ∀ kv2 ∈ st.image_mapping, ∃ w, Guide.normalizeSrc kv2.1 = some w
        ∧ Guide.should_skip_image cfg w = false)
      hstep doc Guide.initImgState (fun kv2 h => absurd h (List.not_mem_nil kv2))
    obtain ⟨w, hw1, hw2⟩ := main kv hkv
    intro hEq
    rw [hEq, normalizeSrc_fix (normalizeSrc_starts_http hnorm)] at hw1
    have hwu : u = w := by
      have := Option.some.injEq u w
      exact (Option.some.inj hw1)
    rw [← hwu, hskip] at hw2
    exact absurd hw2 (by decide)
  · intro attrs ch st hs_attr
    have hpa : Guide.processImgAttrs cfg g dl st attrs = (attrs, st) := by
      unfold Guide.processImgAttrs
      split
      · rfl
      · rename_i src0 hsrc0
        rw [hs_attr, Option.some.injEq] at hsrc0
        subst hsrc0
        split
        · rfl
        · rename_i src1 hnorm1
          rw [hnorm, Option.some.injEq] at hnorm1
          subst hnorm1
          rw [if_pos hskip]
    show (Node.elem ("img".toList)
          (Guide.processImgAttrs cfg g dl st attrs).1
          (Guide.processImagesL cfg g dl ch
            (Guide.processImgAttrs cfg g dl st attrs).2).1,
        (Guide.processImagesL cfg g dl ch
          (Guide.processImgAttrs cfg g dl st attrs).2).2)
      = (Node.elem ("img".toList) attrs (Guide.processImagesL cfg g dl ch st).1,
         (Guide.processImagesL cfg g dl ch st).2)
    rw [hpa]

/-- C4 witness: the theorem applied at a concrete skipped avatar URL, with
a document whose only mapping entry comes from a different, downloadable
image, and at a concrete skipped node with empty children. -/
theorem c4_skip_invariant_witness :
    (Guide.normalizeSrc ("//avatars.fastly.steamstatic.com/a.png".toList)
        = some ("https://avatars.fastly.steamstatic.com/a.png".toList))
    ∧ (Guide.should_skip_image { cdn_base_url := none, skip_ui_images := true }
        ("https://avatars.fastly.steamstatic.com/a.png".toList) = true)
    ∧ ((("//foo.com/ok.png".toList), ("images/image_001.png".toList))
        ∈ (Guide.process_images { cdn_base_url := none, skip_ui_images := true }
            ("G".toList) (fun _ _ => true)
            [Node.elem ("img".toList)
              [(("src".toList), ("//foo.com/ok.png".toList))] []]).2.image_mapping)
    ∧ ((("//foo.com/ok.png".toList), ("images/image_001.png".toList)).1
        ≠ ("https://avatars.fastly.steamstatic.com/a.png".toList))
    ∧ (Guide.processImagesN { cdn_base_url := none, skip_ui_images := true }
        ("G".toList) (fun _ _ => true)
        (.elem ("img".toList)
          [(("src".toList), ("//avatars.fastly.steamstatic.com/a.png".toList))] [])
        Guide.initImgState
      = (.elem ("img".toList)
          [(("src".toList), ("//avatars.fastly.steamstatic.com/a.png".toList))]
          (Guide.processImagesL { cdn_base_url := none, skip_ui_images := true }
            ("G".toList) (fun _ _ => true) [] Guide.initImgState).1,
         (Guide.processImagesL { cdn_base_url := none, skip_ui_images := true }
            ("G".toList) (fun _ _ => true) [] Guide.initImgState).2)) :=
  ⟨by decide, by decide, by decide,
   (c4_skip_invariant { cdn_base_url := none, skip_ui_images := true } ("G".toList)
      (fun _ _ => true) ("//avatars.fastly.steamstatic.com/a.png".toList)
      ("https://avatars.fastly.steamstatic.com/a.png".toList)
      (by decide) (by decide)).1
      [Node.elem ("img".toList) [(("src".toList), ("//foo.com/ok.png".toList))] []]
      ((("//foo.com/ok.png".toList), ("images/image_001.png".toList))) (by decide),
   (c4_skip_invariant { cdn_base_url := none, skip_ui_images := true } ("G".toList)
      (fun _ _ => true) ("//avatars.fastly.steamstatic.com/a.png".toList)
      ("https://avatars.fastly.steamstatic.com/a.png".toList)
      (by decide) (by decide)).2
      [(("src".toList), ("//avatars.fastly.steamstatic.com/a.png".toList))]
      [] Guide.initImgState (by decide)⟩

/-! ## Claim C10 -/

/-- C10: with a CDN base `b` configured, every value stored in the image
mapping still has the relative form `images/...` — and since the Markdown
post-processing (`convert_to_markdown` / `fixImageRefs`) consults only
this mapping, every image-reference rewrite it performs uses the relative
path, never the CDN path — while the src attribute written into the tree
node for each recorded download (its `newSrc`) is the CDN URL
`{b}/{guide_name}/images/{filename}`. -/
theorem c10_mapping_relative (g : Str) (dl : Nat → Str → Bool) (sk : Bool)
    (b : Str) (doc : List Node) :
    (∀ kv ∈ (Guide.process_images { cdn_base_url := some b, skip_ui_images := sk }
        g dl doc).2.image_mapping, ∃ nm, kv.2 = ("images/".toList) ++ nm)
    ∧ (∀ r ∈ (Guide.process_images { cdn_base_url := some b, skip_ui_images := sk }
        g dl doc).2.succs,
      r.newSrc = b ++ ("/".toList) ++ g ++ ("/images/".toList) ++ r.name) := by
  have hstep : ∀ (st : Guide.ImgState) (attrs : List (Str × Str)),
      ((∀ kv ∈ st.image_mapping, ∃ nm, kv.2 = ("images/".toList) ++ nm)
        ∧ (∀ r ∈ st.succs,
          r.newSrc = b ++ ("/".toList) ++ g ++ ("/images/".toList) ++ r.name)) →
      ((∀ kv ∈ (Guide.processImgAttrs { cdn_base_url := some b, skip_ui_images := sk }
          g dl st attrs).2.image_mapping, ∃ nm, kv.2 = ("images/".toList) ++ nm)
        ∧ (∀ r ∈ (Guide.processImgAttrs { cdn_base_url := some b, skip_ui_images := sk }
          g dl st attrs).2.succs,
          r.newSrc = b ++ ("/".toList) ++ g ++ ("/images/".toList) ++ r.name)) := by
    intro st attrs hP
    rcases processImgAttrs_state_chr { cdn_base_url := some b, skip_ui_images := sk }
      g dl st attrs with hcase | hcase | hcase
    · rw [hcase]
      exact hP
    · rw [hcase]
      exact hP
    · obtain ⟨origKey, src, e, _, _, heq⟩ := hcase
      rw [heq]
      constructor
      · intro kv hkv
        rcases updMapping_mem hkv with h | h
        · rw [h]
          exact ⟨("image_".toList) ++ pad3 st.img_counter ++ e, rfl⟩
        · exact hP.1 kv h
      · intro r hr
        rcases List.mem_append.mp hr with h | h
        · exact hP.2 r h
        · rw [List.mem_singleton.mp h]
  exact processImagesL_pres { cdn_base_url := some b, skip_ui_images := sk } g dl
    (fun st => (∀ kv ∈ st.image_mapping, ∃ nm, kv.2 = ("images/".toList) ++ nm)
      ∧ (∀ r ∈ st.succs,
        r.newSrc = b ++ ("/".toList) ++ g ++ ("/images/".toList) ++ r.name))
    hstep doc Guide.initImgState
    ⟨fun kv h => absurd h (List.not_mem_nil kv), fun r h => absurd h (List.not_mem_nil r)⟩

/-- C10 witness: a run with CDN base `https://cdn.example.com`: the single
mapping value is relative, the node rewrite is the CDN URL. -/
theorem c10_mapping_relative_witness :
    ((("//foo.com/bar.png".toList), ("images/image_001.png".toList))
        ∈ (Guide.process_images
            { cdn_base_url := some ("https://cdn.example.com".toList), skip_ui_images := true }
            ("G".toList) (fun _ _ => true)
            [Node.elem ("img".toList)
              [(("src".toList), ("//foo.com/bar.png".toList))] []]).2.image_mapping)
    ∧ (∃ nm, (("//foo.com/bar.png".toList), ("images/image_001.png".toList)).2
        = ("images/".toList) ++ nm) :=
  ⟨by decide,
   (c10_mapping_relative ("G".toList) (fun _ _ => true) true
      ("https://cdn.example.com".toList)
      [Node.elem ("img".toList)
        [(("src".toList), ("//foo.com/bar.png".toList))] []]).1
     ((("//foo.com/bar.png".toList), ("images/image_001.png".toList))) (by decide)⟩

/-! ## Lemmas about pruning -/

theorem qn_false_of_count {q : Node → Bool} {n : Node}
    (h : countMatchesN q n = 0) : q n = false := by
  cases n with
  | text s =>
    by_cases hq : q (.text s) = true
    · rw [show countMatchesN q (.text s) = if q (.text s) then 1 else 0 from rfl,
        if_pos hq] at h
      simp at h
    · exact Bool.eq_false_iff.mpr hq
  | elem t a ch =>
    by_cases hq : q (.elem t a ch) = true
    · rw [show countMatchesN q (.elem t a ch)
          = (if q (.elem t a ch) then 1 else 0) + countMatchesL q ch from rfl,
        if_pos hq] at h
      simp at h
    · exact Bool.eq_false_iff.mpr hq

mutual

theorem findFirstN_none_of_count (q : Node → Bool) :
    ∀ (n : Node), countMatchesN q n = 0 → findFirstN q n = none
  | .text _, _ => rfl
  | .elem t a ch, h => by
    have hch : countMatchesL q ch = 0 := by
      rw [show countMatchesN q (.elem t a ch)
          = (if q (.elem t a ch) then 1 else 0) + countMatchesL q ch from rfl] at h
      omega
    exact findFirstL_none_of_count q ch hch

theorem findFirstL_none_of_count (q : Node → Bool) :
    ∀ (l : List Node), countMatchesL q l = 0 → findFirstL q l = none
  | [], _ => rfl
  | n :: r, h => by
    have hn : countMatchesN q n = 0 := by
      rw [show countMatchesL q (n :: r)
          = countMatchesN q n + countMatchesL q r from rfl] at h
      omega
    have hr : countMatchesL q r = 0 := by
      rw [show countMatchesL q (n :: r)
          = countMatchesN q n + countMatchesL q r from rfl] at h
      omega
    show (if q n then some n
        else match findFirstN q n with
          | some m => some m
          | none => findFirstL q r) = none
    rw [if_neg (by rw [qn_false_of_count hn]; exact (by decide))]
    rw [findFirstN_none_of_count q n hn]
    exact findFirstL_none_of_count q r hr

end

mutual

theorem removeAllN_id (q : Node → Bool) :
    ∀ (n : Node), countMatchesN q n = 0 → removeAllN q n = some n
  | .text s, h => by
    show (if q (Node.text s) then none else some (Node.text s)) = some (Node.text s)
    rw [if_neg (by rw [qn_false_of_count h]; exact (by decide))]
  | .elem t a ch, h => by
    have hch : countMatchesL q ch = 0 := by
      rw [show countMatchesN q (.elem t a ch)
          = (if q (.elem t a ch) then 1 else 0) + countMatchesL q ch from rfl] at h
      omega
    show (if q (Node.elem t a ch) then none
        else some (Node.elem t a (removeAllL q ch))) = some (Node.elem t a ch)
    rw [if_neg (by rw [qn_false_of_count h]; exact (by decide))]
    rw [removeAllL_id q ch hch]

theorem removeAllL_id (q : Node → Bool) :
    ∀ (l : List Node), countMatchesL q l = 0 → removeAllL q l = l
  | [], _ => rfl
  | n :: r, h => by
    have hn : countMatchesN q n = 0 := by
      rw [show countMatchesL q (n :: r)
          = countMatchesN q n + countMatchesL q r from rfl] at h
      omega
    have hr : countMatchesL q r = 0 := by
      rw [show countMatchesL q (n :: r)
          = countMatchesN q n + countMatchesL q r from rfl] at h
      omega
    show (match removeAllN q n with
        | none => removeAllL q r
        | some m => m :: removeAllL q r) = n :: r
    rw [removeAllN_id q n hn, removeAllL_id q r hr]

end

mutual

theorem countMatches_removeAllN_zero (q : Node → Bool)
    (hq : ∀ t a ch ch2, q (.elem t a ch) = q (.elem t a ch2)) :
    ∀ (n m : Node), removeAllN q n = some m → countMatchesN q m = 0
  | .text s, m, h => by
    by_cases hqt : q (.text s) = true
    · rw [show removeAllN q (.text s)
          = (if q (Node.text s) then none else some (Node.text s)) from rfl,
        if_pos hqt] at h
      exact absurd h (by simp)
    · rw [show removeAllN q (.text s)
          = (if q (Node.text s) then none else some (Node.text s)) from rfl,
        if_neg hqt, Option.some.injEq] at h
      rw [← h]
      show (if q (Node.text s) then 1 else 0) = 0
      rw [if_neg hqt]
  | .elem t a ch, m, h => by
    by_cases hqt : q (.elem t a ch) = true
    · rw [show removeAllN q (.elem t a ch)
          = (if q (Node.elem t a ch) then none
             else some (Node.elem t a (removeAllL q ch))) from rfl,
        if_pos hqt] at h
      exact absurd h (by simp)
    · rw [show removeAllN q (.elem t a ch)
          = (if q (Node.elem t a ch) then none
             else some (Node.elem t a (removeAllL q ch))) from rfl,
        if_neg hqt, Option.some.injEq] at h
      rw [← h]
      show (if q (Node.elem t a (removeAllL q ch)) then 1 else 0)
          + countMatchesL q (removeAllL q ch) = 0
      rw [if_neg (by rw [hq t a (removeAllL q ch) ch]; exact hqt)]
      rw [countMatches_removeAllL_zero q hq ch]

theorem countMatches_removeAllL_zero (q : Node → Bool)
    (hq : ∀ t a ch ch2, q (.elem t a ch) = q (.elem t a ch2)) :
    ∀ (l : List Node), countMatchesL q (removeAllL q l) = 0
  | [] => rfl
  | n :: r => by
    show countMatchesL q (match removeAllN q n with
      | none => removeAllL q r
      | some m => m :: removeAllL q r) = 0
    cases hr : removeAllN q n with
    | none => exact countMatches_removeAllL_zero q hq r
    | some m =>
      show countMatchesN q m + countMatchesL q (removeAllL q r) = 0
      rw [countMatches_removeAllN_zero q hq n m hr,
        countMatches_removeAllL_zero q hq r]

end

mutual

theorem countMatches_removeAllN_le (p q : Node → Bool)
    (hp : ∀ t a ch ch2, p (.elem t a ch) = p (.elem t a ch2)) :
    ∀ (n m : Node), removeAllN q n = some m → countMatchesN p m ≤ countMatchesN p n
  | .text s, m, h => by
    by_cases hqt : q (.text s) = true
    · rw [show removeAllN q (.text s)
          = (if q (Node.text s) then none else some (Node.text s)) from rfl,
        if_pos hqt] at h
      exact absurd h (by simp)
    · rw [show removeAllN q (.text s)
          = (if q (Node.text s) then none else some (Node.text s)) from rfl,
        if_neg hqt, Option.some.injEq] at h
      rw [← h]
  | .elem t a ch, m, h => by
    by_cases hqt : q (.elem t a ch) = true
    · rw [show removeAllN q (.elem t a ch)
          = (if q (Node.elem t a ch) then none
             else some (Node.elem t a (removeAllL q ch))) from rfl,
        if_pos hqt] at h
      exact absurd h (by simp)
    · rw [show removeAllN q (.elem t a ch)
          = (if q (Node.elem t a ch) then none
             else some (Node.elem t a (removeAllL q ch))) from rfl,
        if_neg hqt, Option.some.injEq] at h
      rw [← h]
      show (if p (Node.elem t a (removeAllL q ch)) then 1 else 0)
          + countMatchesL p (removeAllL q ch)
        ≤ (if p (Node.elem t a ch) then 1 else 0) + countMatchesL p ch
      rw [hp t a (removeAllL q ch) ch]
      have := countMatches_removeAllL_le p q hp ch
      omega

theorem countMatches_removeAllL_le (p q : Node → Bool)
    (hp : ∀ t a ch ch2, p (.elem t a ch) = p (.elem t a ch2)) :
    ∀ (l : List Node), countMatchesL p (removeAllL q l) ≤ countMatchesL p l
  | [] => Nat.le_refl _
  | n :: r => by
    show countMatchesL p (match removeAllN q n with
      | none => removeAllL q r
      | some m => m :: removeAllL q r) ≤ countMatchesN p n + countMatchesL p r
    cases hr : removeAllN q n with
    | none =>
      show countMatchesL p (removeAllL q r) ≤ countMatchesN p n + countMatchesL p r
      have := countMatches_removeAllL_le p q hp r
      omega
    | some m =>
      show countMatchesN p m + countMatchesL p (removeAllL q r)
        ≤ countMatchesN p n + countMatchesL p r
      have h1 := countMatches_removeAllN_le p q hp n m hr
      have h2 := countMatches_removeAllL_le p q hp r
      omega

end

theorem pruneClasses_count_le (p : Node → Bool)
    (hp : ∀ t a ch ch2, p (.elem t a ch) = p (.elem t a ch2)) :
    ∀ (cls : List Str) (d : List Node),
      countMatchesL p (Cleaner.pruneClasses cls d).1 ≤ countMatchesL p d
  | [], _ => Nat.le_refl _
  | c :: rest, d => by
    show countMatchesL p (Cleaner.pruneClasses rest
        (if countMatchesL (isDivClass c) d = 0 then d
         else removeAllL (isDivClass c) d)).1 ≤ countMatchesL p d
    by_cases hk : countMatchesL (isDivClass c) d = 0
    · rw [if_pos hk]
      exact pruneClasses_count_le p hp rest d
    · rw [if_neg hk]
      exact Nat.le_trans (pruneClasses_count_le p hp rest _)
        (countMatches_removeAllL_le p (isDivClass c) hp d)

theorem pruneClasses_zero_of_mem (c : Str) :
    ∀ (cls : List Str) (d : List Node), c ∈ cls →
      countMatchesL (isDivClass c) (Cleaner.pruneClasses cls d).1 = 0
  | [], _, hc => absurd hc (List.not_mem_nil c)
  | c2 :: rest, d, hc => by
    show countMatchesL (isDivClass c) (Cleaner.pruneClasses rest
        (if countMatchesL (isDivClass c2) d = 0 then d
         else removeAllL (isDivClass c2) d)).1 = 0
    rcases List.mem_cons.mp hc with hEq | hmem
    · subst hEq
      have hzero : countMatchesL (isDivClass c)
          (if countMatchesL (isDivClass c) d = 0 then d
           else removeAllL (isDivClass c) d) = 0 := by
        by_cases hk : countMatchesL (isDivClass c) d = 0
        · rw [if_pos hk]
          exact hk
        · rw [if_neg hk]
          exact countMatches_removeAllL_zero (isDivClass c) (fun _ _ _ _ => rfl) d
      have hle := pruneClasses_count_le (isDivClass c) (fun _ _ _ _ => rfl) rest
        (if countMatchesL (isDivClass c) d = 0 then d else removeAllL (isDivClass c) d)
      omega
    · exact pruneClasses_zero_of_mem c rest _ hmem

theorem pruneIds_notfound :
    ∀ (ids : List Str) (doc : List Node),
      (∀ i ∈ ids, countMatchesL (isDivId i) doc = 0) →
      Cleaner.pruneIds ids doc = (doc, ids.map Cleaner.idNotFoundMsg)
  | [], _, _ => rfl
  | i :: rest, doc, h => by
    have hfind : findFirstL (isDivId i) doc = none :=
      findFirstL_none_of_count _ doc (h i (List.mem_cons_self i rest))
    have hone : Cleaner.pruneOneId i doc = (doc, false) := by
      unfold Cleaner.pruneOneId
      rw [hfind]
    have hrest : Cleaner.pruneIds rest doc = (doc, rest.map Cleaner.idNotFoundMsg) :=
      pruneIds_notfound rest doc (fun j hj => h j (List.mem_cons_of_mem i hj))
    show ((Cleaner.pruneIds rest (Cleaner.pruneOneId i doc).1).1,
        (if (Cleaner.pruneOneId i doc).2 then Cleaner.removedIdMsg i
         else Cleaner.idNotFoundMsg i)
          :: (Cleaner.pruneIds rest (Cleaner.pruneOneId i doc).1).2)
      = (doc, (i :: rest).map Cleaner.idNotFoundMsg)
    rw [hone]
    show ((Cleaner.pruneIds rest doc).1,
        Cleaner.idNotFoundMsg i :: (Cleaner.pruneIds rest doc).2)
      = (doc, (i :: rest).map Cleaner.idNotFoundMsg)
    rw [hrest]
    rfl

theorem pruneClasses_notfound :
    ∀ (cls : List Str) (d : List Node),
      (∀ c ∈ cls, countMatchesL (isDivClass c) d = 0) →
      Cleaner.pruneClasses cls d = (d, cls.map Cleaner.clsNotFoundMsg)
  | [], _, _ => rfl
  | c :: rest, d, h => by
    have hk : countMatchesL (isDivClass c) d = 0 := h c (List.mem_cons_self c rest)
    have hrest : Cleaner.pruneClasses rest d = (d, rest.map Cleaner.clsNotFoundMsg) :=
      pruneClasses_notfound rest d (fun c2 hc2 => h c2 (List.mem_cons_of_mem c hc2))
    show ((Cleaner.pruneClasses rest
        (if countMatchesL (isDivClass c) d = 0 then d
         else removeAllL (isDivClass c) d)).1,
      (if countMatchesL (isDivClass c) d = 0 then [Cleaner.clsNotFoundMsg c]
       else (List.range (countMatchesL (isDivClass c) d)).map
         (fun j => Cleaner.removedClsMsg c (j + 1)))
        ++ (Cleaner.pruneClasses rest
          (if countMatchesL (isDivClass c) d = 0 then d
           else removeAllL (isDivClass c) d)).2)
      = (d, (c :: rest).map Cleaner.clsNotFoundMsg)
    simp only [if_pos hk]
    rw [hrest]
    rfl

/-! ## Claim C6 -/

/-- C6: for every class token supplied to the pruner, all div nodes whose
class attribute contains that token are removed together with their
subtrees (no such div remains anywhere in the output forest); in
particular, for the document
`<div id="global_header">A</div><div class="x">B</div><div class="x">C</div>`
with ids ["global_header"] and classes ["x"], the output is empty and
contains neither A, B, nor C. -/
theorem c6_class_pruning :
    (∀ (c : Str) (ids cls : List Str) (doc : List Node), c ∈ cls →
      countMatchesL (isDivClass c)
        (Cleaner.prunePage (some ids) (some cls) doc).1 = 0)
    ∧ ((Cleaner.prunePage (some [("global_header".toList)]) (some [("x".toList)])
        [Node.elem ("div".toList) [(("id".toList), ("global_header".toList))]
          [Node.text ("A".toList)],
         Node.elem ("div".toList) [(("class".toList), ("x".toList))]
          [Node.text ("B".toList)],
         Node.elem ("div".toList) [(("class".toList), ("x".toList))]
          [Node.text ("C".toList)]]).1 = []
      ∧ hasOccur ("A".toList) (getTextL
          ((Cleaner.prunePage (some [("global_header".toList)]) (some [("x".toList)])
            [Node.elem ("div".toList) [(("id".toList), ("global_header".toList))]
              [Node.text ("A".toList)],
             Node.elem ("div".toList) [(("class".toList), ("x".toList))]
              [Node.text ("B".toList)],
             Node.elem ("div".toList) [(("class".toList), ("x".toList))]
              [Node.text ("C".toList)]]).1)) = false
      ∧ hasOccur ("B".toList) (getTextL
          ((Cleaner.prunePage (some [("global_header".toList)]) (some [("x".toList)])
            [Node.elem ("div".toList) [(("id".toList), ("global_header".toList))]
              [Node.text ("A".toList)],
             Node.elem ("div".toList) [(("class".toList), ("x".toList))]
              [Node.text ("B".toList)],
             Node.elem ("div".toList) [(("class".toList), ("x".toList))]
              [Node.text ("C".toList)]]).1)) = false
      ∧ hasOccur ("C".toList) (getTextL
          ((Cleaner.prunePage (some [("global_header".toList)]) (some [("x".toList)])
            [Node.elem ("div".toList) [(("id".toList), ("global_header".toList))]
              [Node.text ("A".toList)],
             Node.elem ("div".toList) [(("class".toList), ("x".toList))]
              [Node.text ("B".toList)],
             Node.elem ("div".toList) [(("class".toList), ("x".toList))]
              [Node.text ("C".toList)]]).1)) = false) := by
  constructor
  · intro c ids cls doc hc
    show countMatchesL (isDivClass c)
      (Cleaner.pruneClasses cls (Cleaner.pruneIds ids doc).1).1 = 0
    exact pruneClasses_zero_of_mem c cls _ hc
  · exact ⟨rfl, by decide, by decide, by decide⟩

/-- C6 witness: the general statement applied at c = "x" on the scenario
document. -/
theorem c6_class_pruning_witness :
    (("x".toList) ∈ [("x".toList)])
    ∧ countMatchesL (isDivClass ("x".toList))
        (Cleaner.prunePage (some [("global_header".toList)]) (some [("x".toList)])
          [Node.elem ("div".toList) [(("id".toList), ("global_header".toList))]
            [Node.text ("A".toList)],
           Node.elem ("div".toList) [(("class".toList), ("x".toList))]
            [Node.text ("B".toList)],
           Node.elem ("div".toList) [(("class".toList), ("x".toList))]
            [Node.text ("C".toList)]]).1 = 0 :=
  ⟨by decide,
   c6_class_pruning.1 ("x".toList) [("global_header".toList)] [("x".toList)]
     [Node.elem ("div".toList) [(("id".toList), ("global_header".toList))]
       [Node.text ("A".toList)],
      Node.elem ("div".toList) [(("class".toList), ("x".toList))]
       [Node.text ("B".toList)],
      Node.elem ("div".toList) [(("class".toList), ("x".toList))]
       [Node.text ("C".toList)]] (by decide)⟩

/-! ## Claim C7 -/

/-- C7: for ids and class names none of which match any div in the input,
pruning is a no-op: the tree part of the result is the input document,
which structurally equals the result of pruning with the arguments omitted
(the Python defaults, `None`); and each absence produces exactly one
non-fatal not-found log line, in processing order. -/
theorem c7_prune_noop (ids cls : List Str) (doc : List Node)
    (hids : ∀ i ∈ ids, countMatchesL (isDivId i) doc = 0)
    (hcls : ∀ c ∈ cls, countMatchesL (isDivClass c) doc = 0) :
    Cleaner.prunePage (some ids) (some cls) doc
      = (doc, ids.map Cleaner.idNotFoundMsg ++ cls.map Cleaner.clsNotFoundMsg)
    ∧ (Cleaner.prunePage none none doc).1 = doc := by
  constructor
  · have h1 := pruneIds_notfound ids doc hids
    have h2 := pruneClasses_notfound cls doc hcls
    show ((Cleaner.pruneClasses cls (Cleaner.pruneIds ids doc).1).1,
        (Cleaner.pruneIds ids doc).2
          ++ (Cleaner.pruneClasses cls (Cleaner.pruneIds ids doc).1).2)
      = (doc, ids.map Cleaner.idNotFoundMsg ++ cls.map Cleaner.clsNotFoundMsg)
    rw [h1]
    show ((Cleaner.pruneClasses cls doc).1,
        ids.map Cleaner.idNotFoundMsg ++ (Cleaner.pruneClasses cls doc).2)
      = (doc, ids.map Cleaner.idNotFoundMsg ++ cls.map Cleaner.clsNotFoundMsg)
    rw [h2]
  · rfl

/-- C7 witness: the theorem applied to a document with no divs at all and
one absent id and one absent class. -/
theorem c7_prune_noop_witness :
    (∀ i ∈ [("nothere".toList)],
      countMatchesL (isDivId i) [Node.text ("A".toList)] = 0)
    ∧ (∀ c ∈ [("nope".toList)],
      countMatchesL (isDivClass c) [Node.text ("A".toList)] = 0)
    ∧ Cleaner.prunePage (some [("nothere".toList)]) (some [("nope".toList)])
        [Node.text ("A".toList)]
      = ([Node.text ("A".toList)],
         [("nothere".toList)].map Cleaner.idNotFoundMsg
           ++ [("nope".toList)].map Cleaner.clsNotFoundMsg) :=
  ⟨by decide, by decide,
   (c7_prune_noop [("nothere".toList)] [("nope".toList)] [Node.text ("A".toList)]
     (by decide) (by decide)).1⟩
